import Mathlib

/-!
Shallow embedding of the shared-file reconciliation logic of
`Fixture_Control_V1.py`: the methods `get_newest_excel_file`,
`manage_excel_files_on_save`, `prepare_excel_file_on_startup`, and the
guard sequence at the head of `checkout_fixture`.

Filenames (basenames) are modelled as character sequences (`Name`), the
shared directory as a list of `DFile` records, and the semantics of the
filesystem calls the source relies on (`os.path.getmtime`, `os.remove`,
`os.rename`, `shutil.copy2`, openpyxl load/save) as total functions over
that directory state:

* `f.accessible` models whether `os.path.getmtime f` succeeds (the
  source catches `PermissionError`/`OSError` from it in two of the three
  discovery sites);
* `f.locked` models a file held open exclusively by another process
  (the spreadsheet editor case the source comments describe): `os.remove`
  and `os.rename` on it raise, an openpyxl save on it raises (this is the
  write-probe), and an existing locked file cannot be overwritten by
  `shutil.copy2`;
* `os.rename` also raises when the destination path already exists
  (Windows semantics, under which the tool runs; the source deletes the
  destination first for exactly this reason);
* `shutil.copy2` duplicates the content and preserves the modification
  timestamp; a freshly created copy is unlocked and accessible.

An openpyxl load-then-save of unchanged content (the write-probe of
`manage_excel_files_on_save`) is modelled as a pure check: it rewrites
identical bytes, so the abstract content is unchanged.  Cell styling of
the header row is carried as a boolean flag on the content; the
`PatternFill`/`Font` details are display concerns.
-/

set_option autoImplicit false

namespace FixtureControl

/-- A filename (basename), as a character sequence. -/
abbrev Name := List Char

/-- One file of the shared directory.  `rows` and `headerStyled` stand for
the byte content of the workbook; `mtime` is the last-modified timestamp;
`locked` and `accessible` describe how the filesystem calls of the source
behave on this file during the reconciliation call being modelled. -/
structure DFile where
  name : Name
  mtime : Nat
  rows : List (List String)
  headerStyled : Bool
  locked : Bool
  accessible : Bool
deriving DecidableEq

/-- The extension glob `*.xlsx` used at every discovery site. -/
def xlsxExt : Name := ".xlsx".toList

/-- The reserved temp-file marker filtered at every discovery site. -/
def tempMark : Name := "~".toList

/-- The ownership marker `{user}_` of the `startswith` tests. -/
def ownTag (u : Name) : Name := u ++ "_".toList

/-- The `{user}_inventory_` marker of the old-working-copy cleanup. -/
def invTag (u : Name) : Name := u ++ "_inventory_".toList

/-- Directory listing restricted as in the source: glob `*.xlsx`, then
drop temp files whose basename starts with the reserved marker. -/
def xlsxCandidates (d : List DFile) : List DFile :=
  (d.filter (fun f => xlsxExt.isSuffixOf f.name)).filter
    (fun f => !(tempMark.isPrefixOf f.name))

/-- First file of the directory carrying the given basename, as the
filesystem resolves a path. -/
def lookup (d : List DFile) (n : Name) : Option DFile :=
  d.find? (fun f => f.name == n)

/-- Model of `os.path.exists`. -/
def existsAt (d : List DFile) (n : Name) : Bool :=
  d.any (fun f => f.name == n)

/-- Whether `os.remove` succeeds on this basename: the file must exist,
be accessible, and not be held open by another process. -/
def removeOk (d : List DFile) (n : Name) : Bool :=
  match lookup d n with
  | some f => f.accessible && !f.locked
  | none => false

/-- Model of a `try: os.remove(...) except: pass` block: the file is
gone on success and the directory is untouched when the call raises. -/
def tryRemove (d : List DFile) (n : Name) : List DFile :=
  if removeOk d n then d.filter (fun f => !(f.name == n)) else d

/-- Whether `os.rename src dst` succeeds: the source must exist and not
be locked, and (Windows) the destination must not exist. -/
def renameOk (d : List DFile) (src dst : Name) : Bool :=
  (match lookup d src with
   | some s => !s.locked
   | none => false) && !(existsAt d dst)

/-- Effect of a successful `os.rename src dst`. -/
def doRename (d : List DFile) (src dst : Name) : List DFile :=
  d.map (fun f => if f.name == src then { f with name := dst } else f)

/-- Whether `shutil.copy2 src dst` succeeds: the source must exist and be
readable, and any file already at the destination must be replaceable
(not locked, not permission-blocked). -/
def copyOk (d : List DFile) (src dst : Name) : Bool :=
  match lookup d src with
  | some s =>
    s.accessible &&
      (match lookup d dst with
       | some t => t.accessible && !t.locked
       | none => true)
  | none => false

/-- Effect of a successful `shutil.copy2 src dst`: the destination is a
fresh unlocked file with the source's content, and `copy2` preserves the
modification timestamp. -/
def doCopy (d : List DFile) (src dst : Name) : List DFile :=
  match lookup d src with
  | some s =>
    d.filter (fun f => !(f.name == dst)) ++
      [{ name := dst, mtime := s.mtime, rows := s.rows,
         headerStyled := s.headerStyled, locked := false, accessible := true }]
  | none => d

/-- The write-probe of the source: `load_workbook` followed by `save` on
the same path succeeds exactly when the file exists, is readable and is
not exclusively locked; it rewrites identical bytes. -/
def probeOk (d : List DFile) (n : Name) : Bool :=
  match lookup d n with
  | some f => f.accessible && !f.locked
  | none => false

/-- The fixed header schema written when no candidate file exists. -/
def inventoryHeaders : List String :=
  ["Serial", "Model", "Name", "Status", "Checked Out By", "Checked Out At",
   "Serialized Date", "WIP Location"]

/-- The workbook built by the no-candidates branch: a single styled
header row. -/
def freshInventoryFile (n : Name) (now : Nat) : DFile :=
  { name := n, mtime := now, rows := [inventoryHeaders],
    headerStyled := true, locked := false, accessible := true }

/-- Whether `wb.save path` succeeds for a newly built workbook: any file
already at the path must be replaceable. -/
def saveNewOk (d : List DFile) (n : Name) : Bool :=
  match lookup d n with
  | some f => f.accessible && !f.locked
  | none => true

/-- Effect of `wb.save path`: the workbook replaces whatever was at the
path. -/
def saveWorkbook (d : List DFile) (file : DFile) : List DFile :=
  d.filter (fun f => !(f.name == file.name)) ++ [file]

/-- Python's `max(files, key=os.path.getmtime)` over a nonempty list:
the first file attaining the maximal timestamp wins.  The stable
descending sort of `manage_excel_files_on_save` followed by taking the
head selects the same file. -/
def firstNewest1 (f : DFile) (fs : List DFile) : DFile :=
  fs.foldl (fun a g => if a.mtime < g.mtime then g else a) f

/-- The selected newest file is one of the files considered. -/
theorem firstNewest1_mem (f : DFile) (fs : List DFile) :
    firstNewest1 f fs ∈ f :: fs := by
  induction fs generalizing f with
  | nil => simp [firstNewest1]
  | cons g gs ih =>
    simp only [firstNewest1, List.foldl_cons] at *
    by_cases hlt : f.mtime < g.mtime
    · rw [if_pos hlt]
      exact List.mem_cons_of_mem f (ih g)
    · rw [if_neg hlt]
      rcases List.mem_cons.1 (ih f) with h1 | h1
      · rw [h1]; exact List.mem_cons_self _ _
      · exact List.mem_cons_of_mem f (List.mem_cons_of_mem g h1)

/-- The selected newest file attains the maximal timestamp. -/
theorem le_mtime_firstNewest1 (f : DFile) (fs : List DFile) :
    ∀ g ∈ f :: fs, g.mtime ≤ (firstNewest1 f fs).mtime := by
  induction fs generalizing f with
  | nil =>
    intro g hg
    simp only [List.mem_cons, List.not_mem_nil, or_false] at hg
    simp [firstNewest1, hg]
  | cons b bs ih =>
    intro g hg
    have h := ih (if f.mtime < b.mtime then b else f)
    simp only [firstNewest1, List.foldl_cons] at *
    have hf : f.mtime ≤ (if f.mtime < b.mtime then b else f).mtime := by
      split <;> omega
    have hb : b.mtime ≤ (if f.mtime < b.mtime then b else f).mtime := by
      split <;> omega
    have hhead := h (if f.mtime < b.mtime then b else f) (List.mem_cons_self _ _)
    rcases List.mem_cons.1 hg with h1 | h1
    · subst h1; omega
    · rcases List.mem_cons.1 h1 with h2 | h2
      · subst h2; omega
      · exact h g (List.mem_cons.2 (Or.inr h2))

/-- When one file is strictly newer than every other file considered, it
is the selected newest file. -/
theorem firstNewest1_eq_of_strict (a f : DFile) (l : List DFile)
    (hmem : f ∈ a :: l)
    (hstrict : ∀ g ∈ a :: l, g ≠ f → g.mtime < f.mtime) :
    firstNewest1 a l = f := by
  by_cases he : firstNewest1 a l = f
  · exact he
  · have h2 := hstrict _ (firstNewest1_mem a l) he
    have h3 := le_mtime_firstNewest1 a l f hmem
    omega

/-- Embedding of `get_newest_excel_file`: list `*.xlsx`, drop temp files,
drop the files whose timestamp cannot be read, and return the basename
of the newest of the rest; `None` when nothing remains. -/
def get_newest_excel_file (d : List DFile) : Option Name :=
  match xlsxCandidates d with
  | [] => none
  | f0 :: rest =>
    match (f0 :: rest).filter (fun f => f.accessible) with
    | [] => none
    | a :: l => some (firstNewest1 a l).name

/-- Membership in the candidate listing, unfolded. -/
theorem mem_xlsxCandidates (d : List DFile) (f : DFile) :
    f ∈ xlsxCandidates d ↔
      f ∈ d ∧ xlsxExt.isSuffixOf f.name = true ∧
        tempMark.isPrefixOf f.name = false := by
  simp only [xlsxCandidates, List.mem_filter, Bool.not_eq_true',
    Bool.not_eq_eq_eq_not, Bool.not_true]
  tauto

/-- C6 helper: the accessible candidates of the directory. -/
def accessibleCandidates (d : List DFile) : List DFile :=
  (xlsxCandidates d).filter (fun f => f.accessible)

theorem mem_accessibleCandidates (d : List DFile) (f : DFile) :
    f ∈ accessibleCandidates d ↔ f ∈ xlsxCandidates d ∧ f.accessible = true := by
  simp [accessibleCandidates, List.mem_filter]

/-- `get_newest_excel_file` computed from the accessible candidates. -/
theorem get_newest_excel_file_eq_of_acc (d : List DFile) (a : DFile) (l : List DFile)
    (h : accessibleCandidates d = a :: l) :
    get_newest_excel_file d = some (firstNewest1 a l).name := by
  have hne : xlsxCandidates d ≠ [] := by
    intro hc
    rw [accessibleCandidates, hc] at h
    simp at h
  rcases hC : xlsxCandidates d with _ | ⟨c0, crest⟩
  · exact absurd hC hne
  · rw [accessibleCandidates, hC] at h
    simp only [get_newest_excel_file, hC, h]

/-- C6: for every directory in which `f` is an accessible non-temp
`.xlsx` candidate and every other accessible non-temp candidate has a
strictly smaller modification timestamp, `get_newest_excel_file` returns
`f`'s name: files with unreadable timestamps and files carrying the
temp marker are excluded from the computation even when newer. -/
theorem c6_select_newest_returns_max (d : List DFile) (f : DFile)
    (hmem : f ∈ d)
    (hxl : xlsxExt.isSuffixOf f.name = true)
    (hnt : tempMark.isPrefixOf f.name = false)
    (hacc : f.accessible = true)
    (hmax : ∀ g ∈ d, xlsxExt.isSuffixOf g.name = true →
      tempMark.isPrefixOf g.name = false → g.accessible = true →
      g ≠ f → g.mtime < f.mtime) :
    get_newest_excel_file d = some f.name := by
  have hfA : f ∈ accessibleCandidates d := by
    rw [mem_accessibleCandidates, mem_xlsxCandidates]
    exact ⟨⟨hmem, hxl, hnt⟩, hacc⟩
  rcases hA : accessibleCandidates d with _ | ⟨a, l⟩
  · rw [hA] at hfA; simp at hfA
  · rw [get_newest_excel_file_eq_of_acc d a l hA]
    rw [hA] at hfA
    have hstrict : ∀ g ∈ a :: l, g ≠ f → g.mtime < f.mtime := by
      intro g hg hgf
      have hg2 : g ∈ accessibleCandidates d := by rw [hA]; exact hg
      rw [mem_accessibleCandidates, mem_xlsxCandidates] at hg2
      exact hmax g hg2.1.1 hg2.1.2.1 hg2.1.2.2 hg2.2 hgf
    rw [firstNewest1_eq_of_strict a f l hfA hstrict]

/-- C6 witness: a concrete directory where the maximal-timestamp file is
selected while a newer permission-blocked file and a newer temp file are
both ignored. -/
theorem c6_select_newest_returns_max_witness :
    get_newest_excel_file
      [⟨"~tmp_inventory.xlsx".toList, 90, [], false, false, true⟩,
       ⟨"alice_inventory.xlsx".toList, 50, [], false, false, true⟩,
       ⟨"bob_inventory.xlsx".toList, 80, [], false, false, false⟩,
       ⟨"carol_notes.txt".toList, 95, [], false, false, true⟩] =
      some ("alice_inventory.xlsx".toList) := by
  exact c6_select_newest_returns_max _
    ⟨"alice_inventory.xlsx".toList, 50, [], false, false, true⟩
    (by decide) (by decide) (by decide) (by decide) (by decide)

/-- `get_excel_file`: the canonical per-user path
`{user}_inventory.xlsx`, the initial value of `self.excel_file`. -/
def get_excel_file (u : Name) : Name := u ++ "_inventory.xlsx".toList

/-- The working-copy name used when the newest file is owned but locked:
`{user}_inventory_{timestamp}.xlsx`. -/
def inventoryCopyName (u ts : Name) : Name :=
  u ++ "_inventory_".toList ++ ts ++ ".xlsx".toList

/-- The working-copy name used when the newest file is foreign:
`{user}_current_{timestamp}.xlsx`. -/
def currentCopyName (u ts : Name) : Name :=
  u ++ "_current_".toList ++ ts ++ ".xlsx".toList

/-- The ownership test used at every classification site of the source:
the basename starts with `{user}_`. -/
def ownedBy (u n : Name) : Bool := (ownTag u).isPrefixOf n

/-- The mutable session state and call context of
`manage_excel_files_on_save`: the active username, the value of
`self.excel_file` at the call (the canonical `{user}_inventory.xlsx`
path in the normal configuration, but reassigned by earlier
reconciliation passes), the `time.strftime` stamp of this call, the
clock used for written files, and the shared directory. -/
structure SaveEnv where
  username : Name
  excelFile : Name
  timestamp : Name
  now : Nat
  dir : List DFile
deriving DecidableEq

/-- Result of `manage_excel_files_on_save`: the directory after the
call, the value of `self.excel_file` after the call, and the returned
boolean. -/
structure SaveResult where
  dir : List DFile
  excelFile : Name
  ok : Bool
deriving DecidableEq

/-- The cleanup loops of the source
(`for f in excel_files: if <cond f>: try: os.remove(f) except: pass`),
iterating over the paths of the initial listing while the directory
changes underneath. -/
def deleteMatching (files : List DFile) (cond : DFile → Bool)
    (d : List DFile) : List DFile :=
  files.foldl (fun acc f => if cond f then tryRemove acc f.name else acc) d

/-- Embedding of `manage_excel_files_on_save`.  Stage by stage, following
the source: list candidates; if none, build and save a fresh header-only
workbook at `self.excel_file` and adopt it.  Otherwise read every
candidate's timestamp (this list comprehension has no per-file handler:
an unreadable timestamp raises to the outer handler, which returns
`False` before any mutation).  Sort newest-first and branch on whether
the newest basename starts with `{user}_`:

* owned: if not already at `self.excel_file`, delete the stale file
  there (caught on failure) and rename the newest onto it (caught on
  failure); delete every other candidate whose basename starts with
  `{user}_` (each caught); write-probe the adopted path; on probe
  success re-enforce the final name (caught) and return `True`; on probe
  failure copy the locked file to `{user}_inventory_{timestamp}.xlsx`,
  write-probe the copy (an error here reaches the outer handler), adopt
  it, delete old `{user}_inventory_`-prefixed copies (each caught), and
  return `True`;
* not owned: copy the newest to `{user}_current_{timestamp}.xlsx`,
  write-probe the copy, adopt it, delete every other candidate whose
  basename starts with `{user}_` (each caught), and return `True`.

The `try: os.remove` blocks guarded by `os.path.exists` in the source
are subsumed by `tryRemove`, which is the identity on a missing path. -/
def manage_excel_files_on_save (env : SaveEnv) : SaveResult :=
  let current := env.excelFile
  let u := env.username
  match xlsxCandidates env.dir with
  | [] =>
    if saveNewOk env.dir current then
      { dir := saveWorkbook env.dir (freshInventoryFile current env.now),
        excelFile := current, ok := true }
    else { dir := env.dir, excelFile := env.excelFile, ok := false }
  | f0 :: rest =>
    if (f0 :: rest).all (fun f => f.accessible) then
      let excelFiles := f0 :: rest
      let newest := firstNewest1 f0 rest
      if (ownTag u).isPrefixOf newest.name then
        let st :=
          if newest.name = current then (env.dir, newest.name)
          else
            let dirA := tryRemove env.dir current
            if renameOk dirA newest.name current then
              (doRename dirA newest.name current, current)
            else (dirA, newest.name)
        let dir2 := deleteMatching excelFiles
          (fun f => !(f.name == st.2) && (ownTag u).isPrefixOf f.name) st.1
        if probeOk dir2 st.2 then
          if st.2 = current then
            { dir := dir2, excelFile := st.2, ok := true }
          else
            let dirB := tryRemove dir2 current
            if renameOk dirB st.2 current then
              { dir := doRename dirB st.2 current, excelFile := current, ok := true }
            else { dir := dirB, excelFile := st.2, ok := true }
        else
          let copyName := inventoryCopyName u env.timestamp
          if copyOk dir2 st.2 copyName then
            let dir3 := doCopy dir2 st.2 copyName
            if probeOk dir3 copyName then
              { dir := deleteMatching excelFiles
                  (fun f => !(f.name == copyName) && !(f.name == st.2) &&
                    (invTag u).isPrefixOf f.name) dir3,
                excelFile := copyName, ok := true }
            else { dir := dir3, excelFile := env.excelFile, ok := false }
          else { dir := dir2, excelFile := env.excelFile, ok := false }
      else
        let copyName := currentCopyName u env.timestamp
        if copyOk env.dir newest.name copyName then
          let dir1 := doCopy env.dir newest.name copyName
          if probeOk dir1 copyName then
            { dir := deleteMatching excelFiles
                (fun f => !(f.name == copyName) && (ownTag u).isPrefixOf f.name) dir1,
              excelFile := copyName, ok := true }
          else { dir := dir1, excelFile := env.excelFile, ok := false }
        else { dir := env.dir, excelFile := env.excelFile, ok := false }
    else { dir := env.dir, excelFile := env.excelFile, ok := false }

/-- Call context of `prepare_excel_file_on_startup`: at this point
`__init__` has just set `self.excel_file` to the canonical per-user
path. -/
structure StartupEnv where
  username : Name
  excelFile : Name
  dir : List DFile
deriving DecidableEq

/-- Result of `prepare_excel_file_on_startup` (the method returns
`None`; its effects are the directory and `self.excel_file`). -/
structure StartupResult where
  dir : List DFile
  excelFile : Name
deriving DecidableEq

/-- Embedding of `prepare_excel_file_on_startup`: list candidates
(return unchanged when none); read timestamps, skipping files that raise
(the loop here does catch `PermissionError`/`OSError` per file); return
unchanged when no candidate is accessible; otherwise take the newest.
If it already is `self.excel_file`, keep it; otherwise delete the stale
per-user file (caught, `pass`) and copy the newest over it.  After
adoption delete every other candidate whose basename starts with
`{user}_` (each caught).  If the copy raises, fall back to adopting the
newest candidate's own path.  The outer handler swallows everything, so
the method never raises. -/
def prepare_excel_file_on_startup (env : StartupEnv) : StartupResult :=
  let current := env.excelFile
  let u := env.username
  match xlsxCandidates env.dir with
  | [] => { dir := env.dir, excelFile := env.excelFile }
  | f0 :: rest =>
    let excelFiles := f0 :: rest
    match excelFiles.filter (fun f => f.accessible) with
    | [] => { dir := env.dir, excelFile := env.excelFile }
    | a :: l =>
      let newest := firstNewest1 a l
      if newest.name = current then
        { dir := deleteMatching excelFiles
            (fun f => !(f.name == current) && (ownTag u).isPrefixOf f.name) env.dir,
          excelFile := current }
      else
        let dirA := tryRemove env.dir current
        if copyOk dirA newest.name current then
          { dir := deleteMatching excelFiles
              (fun f => !(f.name == current) && (ownTag u).isPrefixOf f.name)
              (doCopy dirA newest.name current),
            excelFile := current }
        else { dir := dirA, excelFile := newest.name }

/-- Digit run, for the serial validation of `checkout_fixture`. -/
def isDigitList (l : Name) : Bool := l.all (fun c => c.isDigit)

/-- Body of the serial pattern: `FX` plus five digits, or `F` plus two
to six digits. -/
def serialCore (l : Name) : Bool :=
  match l with
  | 'F' :: 'X' :: ds => (ds.length == 5) && isDigitList ds
  | 'F' :: ds =>
    decide (2 ≤ ds.length) && decide (ds.length ≤ 6) && isDigitList ds
  | _ => false

/-- The regular expression of `checkout_fixture`,
`^(FX\d\x7b5\x7d|F\d\x7b2,6\x7d)(-SLC)?$`: an optional `-SLC` suffix
after the serial body. -/
def matchesSerialPattern (s : Name) : Bool :=
  if ("-SLC".toList.isSuffixOf s) then serialCore (s.take (s.length - 4))
  else serialCore s

/-- How `checkout_fixture` ends: the branch taken by the source. -/
inductive CheckoutOutcome where
  | fileError
  | missingInfo
  | badSerial
  | missingWip
  | statusBlocked
  | notFound
  | done
  | loadError
deriving DecidableEq

/-- Effects of one `checkout_fixture` call: directory, active file, and
whether any `wb.save` ran. -/
structure CheckoutResult where
  dir : List DFile
  excelFile : Name
  wrote : Bool
  outcome : CheckoutOutcome
deriving DecidableEq

/-- `ws.cell(...)` column writes create missing cells; pad a row to the
eight-column schema before setting cells. -/
def padRow (r : List String) : List String :=
  r ++ List.replicate (8 - r.length) ""

/-- Read of a cell value, empty when the cell is missing
(`if row[3].value else ""` in the source). -/
def rowCell (r : List String) (i : Nat) : String := r.getD i ("")

/-- The cell updates of a successful checkout: status to `WIP` or
`Checked Out`, columns five, six and eight to the person, the
text-formatted time, and the WIP location (cleared when not WIP). -/
def checkoutUpdateRow (r : List String) (isWip : Bool)
    (person time wip : String) : List String :=
  ((((padRow r).set 3 (if isWip then ("WIP") else ("Checked Out"))).set 4 person).set 5
      time).set 7 (if isWip then wip else (""))

/-- The row scan of `checkout_fixture` over the data rows (header
excluded): the first row whose serial cell prints as the requested
serial is inspected; a non-`Available` status aborts (`some false`),
otherwise the row is updated (`some true`); `none` when no row
matches. -/
def checkoutScan (rows : List (List String)) (serial : Name) (isWip : Bool)
    (person time wip : String) : List (List String) × Option Bool :=
  match rows with
  | [] => ([], none)
  | r :: rs =>
    if (rowCell r 0).toList == serial then
      if !((rowCell r 3).trim == "Available") then (r :: rs, some false)
      else (checkoutUpdateRow r isWip person time wip :: rs, some true)
    else
      let p := checkoutScan rs serial isWip person time wip
      (r :: p.1, p.2)

/-- Embedding of `checkout_fixture`: run `manage_excel_files_on_save`
first and abort with a warning when it reports failure; then the input
guards (missing fields, serial pattern, missing WIP location), each
aborting before any workbook access; then load the adopted workbook
(failures reach the outer handler), scan and update, and save.  The
source saves even when the serial was not found (the save sits outside
the loop, before the not-found warning); it skips the save only when
the matched row's status blocks the checkout. -/
def checkout_fixture (env : SaveEnv) (serialRaw personRaw : String)
    (isWip : Bool) (wipLocation : String) (checkoutTime : String) :
    CheckoutResult :=
  let m := manage_excel_files_on_save env
  if !m.ok then
    { dir := m.dir, excelFile := m.excelFile, wrote := false,
      outcome := CheckoutOutcome.fileError }
  else
    let serial : Name := serialRaw.trim.toList.map Char.toUpper
    let person := personRaw.trim
    if serial.isEmpty || person.isEmpty then
      { dir := m.dir, excelFile := m.excelFile, wrote := false,
        outcome := CheckoutOutcome.missingInfo }
    else if !matchesSerialPattern serial then
      { dir := m.dir, excelFile := m.excelFile, wrote := false,
        outcome := CheckoutOutcome.badSerial }
    else if isWip && wipLocation.trim.isEmpty then
      { dir := m.dir, excelFile := m.excelFile, wrote := false,
        outcome := CheckoutOutcome.missingWip }
    else
      match lookup m.dir m.excelFile with
      | none =>
        { dir := m.dir, excelFile := m.excelFile, wrote := false,
          outcome := CheckoutOutcome.loadError }
      | some wb =>
        if wb.locked || !wb.accessible then
          { dir := m.dir, excelFile := m.excelFile, wrote := false,
            outcome := CheckoutOutcome.loadError }
        else
          let scan := checkoutScan (wb.rows.drop 1) serial isWip person
            checkoutTime wipLocation
          match scan.2 with
          | some false =>
            { dir := m.dir, excelFile := m.excelFile, wrote := false,
              outcome := CheckoutOutcome.statusBlocked }
          | some true =>
            { dir := saveWorkbook m.dir
                { wb with rows := wb.rows.take 1 ++ scan.1, mtime := env.now },
              excelFile := m.excelFile, wrote := true,
              outcome := CheckoutOutcome.done }
          | none =>
            { dir := saveWorkbook m.dir { wb with mtime := env.now },
              excelFile := m.excelFile, wrote := true,
              outcome := CheckoutOutcome.notFound }

/-- The basenames of a directory listing. -/
def dirNames (d : List DFile) : List Name := d.map DFile.name

theorem mem_dirNames {d : List DFile} {n : Name} :
    n ∈ dirNames d ↔ ∃ f ∈ d, f.name = n := by
  constructor
  · intro h
    rcases List.mem_map.1 h with ⟨f, hf, he⟩
    exact ⟨f, hf, he⟩
  · intro h
    rcases h with ⟨f, hf, he⟩
    exact List.mem_map.2 ⟨f, hf, he⟩

theorem name_mem_dirNames {d : List DFile} {f : DFile} (h : f ∈ d) :
    f.name ∈ dirNames d :=
  mem_dirNames.2 ⟨f, h, rfl⟩

theorem lookup_eq_none_of_not_mem {d : List DFile} {n : Name}
    (h : n ∉ dirNames d) : lookup d n = none := by
  rw [lookup, List.find?_eq_none]
  intro f hf
  simp only [beq_iff_eq]
  intro he
  exact h (he ▸ name_mem_dirNames hf)

theorem lookup_eq_some_self {d : List DFile} {g : DFile}
    (hnd : (dirNames d).Nodup) (hg : g ∈ d) : lookup d g.name = some g := by
  induction d with
  | nil => simp at hg
  | cons h t ih =>
    rw [dirNames, List.map_cons, List.nodup_cons] at hnd
    rcases List.mem_cons.1 hg with h1 | h1
    · subst h1
      rw [lookup]
      exact List.find?_cons_of_pos _ (by simp)
    · have hne : h.name ≠ g.name := by
        intro he
        exact hnd.1 (he ▸ name_mem_dirNames h1)
      rw [lookup, List.find?_cons_of_neg _ (by simp [hne])]
      exact ih hnd.2 h1

/-- `tryRemove` only ever shrinks the listing. -/
theorem tryRemove_sublist (d : List DFile) (n : Name) :
    List.Sublist (tryRemove d n) d := by
  rw [tryRemove]
  split
  · exact List.filter_sublist d
  · exact List.Sublist.refl d

theorem mem_tryRemove_of_ne {d : List DFile} {g : DFile} {n : Name}
    (hg : g ∈ d) (hne : g.name ≠ n) : g ∈ tryRemove d n := by
  rw [tryRemove]
  split
  · exact List.mem_filter.2 ⟨hg, by simp [hne]⟩
  · exact hg

/-- A successful `os.remove` leaves no file at the removed path. -/
theorem not_mem_names_tryRemove {d : List DFile} {n : Name}
    (h : removeOk d n = true) : n ∉ dirNames (tryRemove d n) := by
  rw [tryRemove, if_pos h]
  intro hmem
  rcases mem_dirNames.1 hmem with ⟨f, hf, hfn⟩
  have := (List.mem_filter.1 hf).2
  simp [hfn] at this

/-- Removing a file held by another process (or permission-blocked) is a
caught no-op. -/
theorem tryRemove_eq_of_not_removable {d : List DFile} {g : DFile}
    (hnd : (dirNames d).Nodup) (hg : g ∈ d)
    (h : g.accessible = false ∨ g.locked = true) :
    tryRemove d g.name = d := by
  rw [tryRemove, removeOk, lookup_eq_some_self hnd hg]
  rcases h with h | h <;> simp [h]

theorem dirNames_sublist_of_sublist {d d' : List DFile} (h : List.Sublist d' d) :
    List.Sublist (dirNames d') (dirNames d) :=
  h.map DFile.name

theorem nodup_of_sublist {d d' : List DFile} (h : List.Sublist d' d)
    (hnd : (dirNames d).Nodup) : (dirNames d').Nodup :=
  (dirNames_sublist_of_sublist h).nodup hnd

/-- `deleteMatching` only ever shrinks the listing. -/
theorem deleteMatching_sublist (files : List DFile) (cond : DFile → Bool)
    (d : List DFile) : List.Sublist (deleteMatching files cond d) d := by
  induction files generalizing d with
  | nil => exact List.Sublist.refl d
  | cons h t ih =>
    rw [deleteMatching, List.foldl_cons]
    by_cases hc : cond h = true
    · rw [if_pos hc]
      exact (ih (tryRemove d h.name)).trans (tryRemove_sublist d h.name)
    · rw [if_neg hc]
      exact ih d

theorem mem_deleteMatching_of_cond_ne {files : List DFile}
    {cond : DFile → Bool} {d : List DFile} {g : DFile} (hg : g ∈ d)
    (h : ∀ h' ∈ files, cond h' = true → h'.name ≠ g.name) :
    g ∈ deleteMatching files cond d := by
  induction files generalizing d with
  | nil => exact hg
  | cons a t ih =>
    rw [deleteMatching, List.foldl_cons]
    by_cases hc : cond a = true
    · rw [if_pos hc]
      exact ih (mem_tryRemove_of_ne hg (fun he => h a (List.mem_cons_self a t) hc he.symm))
        (fun h' hh' => h h' (List.mem_cons_of_mem a hh'))
    · rw [if_neg hc]
      exact ih hg (fun h' hh' => h h' (List.mem_cons_of_mem a hh'))

/-- A locked or permission-blocked file survives every cleanup loop:
each `os.remove` on it raises and is caught. -/
theorem mem_deleteMatching_of_not_removable {files : List DFile}
    {cond : DFile → Bool} {d : List DFile} {g : DFile}
    (hnd : (dirNames d).Nodup) (hg : g ∈ d)
    (h : g.accessible = false ∨ g.locked = true) :
    g ∈ deleteMatching files cond d := by
  induction files generalizing d with
  | nil => exact hg
  | cons a t ih =>
    rw [deleteMatching, List.foldl_cons]
    by_cases hc : cond a = true
    · rw [if_pos hc]
      by_cases hn : a.name = g.name
      · rw [hn, tryRemove_eq_of_not_removable hnd hg h]
        exact ih hnd hg
      · exact ih (nodup_of_sublist (tryRemove_sublist d a.name) hnd)
          (mem_tryRemove_of_ne hg (fun he => hn (he.symm)))
    · rw [if_neg hc]
      exact ih hnd hg

/-- The cleanup loops do delete an accessible, unlocked file that they
target. -/
theorem not_mem_names_deleteMatching {files : List DFile}
    {cond : DFile → Bool} {d : List DFile} {g : DFile}
    (hnd : (dirNames d).Nodup) (hg : g ∈ d) (hgf : g ∈ files)
    (hcond : cond g = true) (hacc : g.accessible = true)
    (hnl : g.locked = false) :
    g.name ∉ dirNames (deleteMatching files cond d) := by
  induction files generalizing d with
  | nil => simp at hgf
  | cons a t ih =>
    rw [deleteMatching, List.foldl_cons]
    by_cases hmain : cond a = true ∧ a.name = g.name
    · rw [if_pos hmain.1, hmain.2]
      have hok : removeOk d g.name = true := by
        simp [removeOk, lookup_eq_some_self hnd hg, hacc, hnl]
      intro hmem
      exact not_mem_names_tryRemove hok
        ((dirNames_sublist_of_sublist (deleteMatching_sublist t cond _)).subset hmem)
    · have hga : g ≠ a := by
        intro he
        exact hmain ⟨he ▸ hcond, by rw [he]⟩
      have hgt : g ∈ t := by
        rcases List.mem_cons.1 hgf with h1 | h1
        · exact absurd h1 hga
        · exact h1
      by_cases hc : cond a = true
      · rw [if_pos hc]
        have han : a.name ≠ g.name := fun he => hmain ⟨hc, he⟩
        exact ih (nodup_of_sublist (tryRemove_sublist d a.name) hnd)
          (mem_tryRemove_of_ne hg (fun he => han he.symm)) hgt
      · rw [if_neg hc]
        exact ih hnd hg hgt

theorem mem_doRename_of_ne {d : List DFile} {g : DFile} {src dst : Name}
    (hg : g ∈ d) (hne : g.name ≠ src) : g ∈ doRename d src dst := by
  rw [doRename]
  have : (fun f => if f.name == src then { f with name := dst } else f) g = g := by
    simp [hne]
  exact this ▸ List.mem_map_of_mem _ hg

theorem mem_doCopy_of_ne {d : List DFile} {g : DFile} {src dst : Name}
    (hg : g ∈ d) (hne : g.name ≠ dst) : g ∈ doCopy d src dst := by
  rw [doCopy]
  split
  · exact List.mem_append_left _ (List.mem_filter.2 ⟨hg, by simp [hne]⟩)
  · exact hg

theorem mem_saveWorkbook_of_ne {d : List DFile} {g file : DFile}
    (hg : g ∈ d) (hne : g.name ≠ file.name) : g ∈ saveWorkbook d file :=
  List.mem_append_left _ (List.mem_filter.2 ⟨hg, by simp [hne]⟩)

/-- The `{user}_` ownership marker is a prefix of every name the
reconciler builds for this user. -/
theorem ownedBy_append (u tail : Name) (h : ("_".toList).isPrefixOf tail = true) :
    ownedBy u (u ++ tail) = true := by
  rw [ List.isPrefixOf_iff_prefix] at h
  rw [ownedBy, ownTag, List.isPrefixOf_iff_prefix]
  exact (List.prefix_append_right_inj u).2 h

theorem ownedBy_get_excel_file (u : Name) : ownedBy u (get_excel_file u) = true :=
  ownedBy_append u _ (by decide)

theorem ownedBy_inventoryCopyName (u ts : Name) :
    ownedBy u (inventoryCopyName u ts) = true := by
  rw [inventoryCopyName, List.append_assoc, List.append_assoc]
  refine ownedBy_append u _ ?_
  rw [ List.isPrefixOf_iff_prefix]
  refine List.IsPrefix.trans ?_ (List.prefix_append _ _)
  decide

theorem ownedBy_currentCopyName (u ts : Name) :
    ownedBy u (currentCopyName u ts) = true := by
  rw [currentCopyName, List.append_assoc, List.append_assoc]
  refine ownedBy_append u _ ?_
  rw [ List.isPrefixOf_iff_prefix]
  refine List.IsPrefix.trans ?_ (List.prefix_append _ _)
  decide

/-- A name with the `{user}_inventory_` working-copy marker in
particular carries the `{user}_` ownership marker. -/
theorem ownedBy_of_inventoryMark {u n : Name}
    (h : (invTag u).isPrefixOf n = true) :
    ownedBy u n = true := by
  rw [ List.isPrefixOf_iff_prefix] at h
  rw [ownedBy, ownTag, List.isPrefixOf_iff_prefix]
  refine List.IsPrefix.trans ?_ h
  rw [invTag]
  have heq : u ++ "_".toList ++ "inventory_".toList = u ++ "_inventory_".toList := by
    rw [List.append_assoc]
    rfl
  rw [← heq]
  exact List.prefix_append _ _

/-- The candidate test, fused: a `*.xlsx` basename without the temp
marker. -/
def isCandidate (f : DFile) : Bool :=
  !(tempMark.isPrefixOf f.name) && xlsxExt.isSuffixOf f.name

theorem xlsxCandidates_eq (d : List DFile) :
    xlsxCandidates d = d.filter isCandidate := by
  rw [xlsxCandidates, List.filter_filter]
  rfl

theorem xlsxCandidates_subset {d : List DFile} {f : DFile}
    (h : f ∈ xlsxCandidates d) : f ∈ d := by
  rw [xlsxCandidates_eq] at h
  exact (List.mem_filter.1 h).1

theorem xlsxCandidates_cons (g : DFile) (d : List DFile) :
    xlsxCandidates (g :: d) =
      if isCandidate g then g :: xlsxCandidates d else xlsxCandidates d := by
  rw [xlsxCandidates_eq, xlsxCandidates_eq, List.filter_cons]

theorem isCandidate_of_mem_xlsxCandidates {d : List DFile} {f : DFile}
    (h : f ∈ xlsxCandidates d) : isCandidate f = true := by
  rw [xlsxCandidates_eq] at h
  exact (List.mem_filter.1 h).2

theorem mem_xlsxCandidates_of (d : List DFile) (f : DFile) (h1 : f ∈ d)
    (h2 : isCandidate f = true) : f ∈ xlsxCandidates d := by
  rw [xlsxCandidates_eq]
  exact List.mem_filter.2 ⟨h1, h2⟩

theorem existsAt_eq_false_of_not_mem {d : List DFile} {n : Name}
    (h : n ∉ dirNames d) : existsAt d n = false := by
  rw [existsAt]
  rw [List.any_eq_false]
  intro f hf
  simp only [beq_iff_eq]
  intro he
  exact h (he ▸ name_mem_dirNames hf)

theorem lookup_mem {d : List DFile} {n : Name} {f : DFile}
    (h : lookup d n = some f) : f ∈ d ∧ f.name = n := by
  refine ⟨List.mem_of_find?_eq_some h, ?_⟩
  have := List.find?_some h
  simpa using this

/-- The `.xlsx` suffix survives prepending the username. -/
theorem xlsxSuffix_append (u tail : Name)
    (h : xlsxExt.isSuffixOf tail = true) :
    xlsxExt.isSuffixOf (u ++ tail) = true := by
  rw [List.isSuffixOf_iff_suffix] at *
  exact h.trans (List.suffix_append u tail)

theorem xlsxSuffix_get_excel_file (u : Name) :
    xlsxExt.isSuffixOf (get_excel_file u) = true :=
  xlsxSuffix_append u _ (by decide)

/-- A name built as `u ++ tail` carries the temp marker only when `u`
does (or `u` is empty and `tail` does). -/
theorem temp_mark_append (u tail : Name)
    (hu : tempMark.isPrefixOf u = false)
    (ht : tempMark.isPrefixOf tail = false) :
    tempMark.isPrefixOf (u ++ tail) = false := by
  rw [tempMark] at hu ht ⊢
  cases u with
  | nil => simpa using ht
  | cons c cu =>
    simp only [List.isPrefixOf, List.cons_append] at hu ⊢
    simpa using (by simpa using hu)

theorem isCandidate_get_excel_file (u : Name)
    (hu : tempMark.isPrefixOf u = false) :
    ∀ f : DFile, f.name = get_excel_file u → isCandidate f = true := by
  intro f hf
  rw [isCandidate, hf, get_excel_file]
  rw [xlsxSuffix_append u _ (by decide), temp_mark_append u _ hu (by decide)]
  rfl

theorem temp_mark_underscore (tail : Name) :
    tempMark.isPrefixOf ('_' :: tail) = false := rfl

theorem isCandidate_of_name (u : Name) (f : DFile)
    (hs : xlsxExt.isSuffixOf f.name = true)
    (hp : (ownTag u).isPrefixOf f.name = true)
    (hu : tempMark.isPrefixOf u = false) : isCandidate f = true := by
  rw [isCandidate, hs]
  rw [ownTag, List.isPrefixOf_iff_prefix] at hp
  rcases hp with ⟨tail, htail⟩
  rw [← htail, List.append_assoc]
  rw [temp_mark_append u ("_".toList ++ tail) hu (temp_mark_underscore tail)]
  rfl

/-- The basenames after a rename: the source basename is replaced by the
destination. -/
theorem dirNames_doRename (d : List DFile) (src dst : Name) :
    dirNames (doRename d src dst) =
      (dirNames d).map (fun n => if n = src then dst else n) := by
  rw [dirNames, doRename, dirNames, List.map_map, List.map_map]
  refine List.map_congr_left ?_
  intro f _
  by_cases h : f.name = src <;> simp [h]

theorem nodup_dirNames_doRename {d : List DFile} {src dst : Name}
    (hnd : (dirNames d).Nodup) (hdst : dst ∉ dirNames d) :
    (dirNames (doRename d src dst)).Nodup := by
  rw [dirNames_doRename]
  refine List.Nodup.map_on ?_ hnd
  intro x hx y hy he
  by_cases hxs : x = src <;> by_cases hys : y = src
  · rw [hxs, hys]
  · rw [if_pos hxs, if_neg hys] at he
    exact absurd (he ▸ hy) hdst
  · rw [if_neg hxs, if_pos hys] at he
    exact absurd (he.symm ▸ hx) hdst
  · rwa [if_neg hxs, if_neg hys] at he

theorem renamed_mem_doRename {d : List DFile} {f : DFile} {src dst : Name}
    (hf : f ∈ d) (hname : f.name = src) :
    { f with name := dst } ∈ doRename d src dst := by
  rw [doRename]
  have : (fun g => if g.name == src then { g with name := dst } else g) f =
      { f with name := dst } := by
    simp [hname]
  exact this ▸ List.mem_map_of_mem _ hf

theorem mem_doRename_elim {d : List DFile} {g : DFile} {src dst : Name}
    (h : g ∈ doRename d src dst) :
    ∃ f ∈ d, (f.name = src ∧ g = { f with name := dst }) ∨
      (f.name ≠ src ∧ g = f) := by
  rw [doRename] at h
  rcases List.mem_map.1 h with ⟨f, hf, he⟩
  refine ⟨f, hf, ?_⟩
  by_cases hs : f.name = src
  · left
    refine ⟨hs, ?_⟩
    rw [← he]
    simp [hs]
  · right
    refine ⟨hs, ?_⟩
    rw [← he]
    simp [hs]

/-- The record written by a successful `shutil.copy2`. -/
def copiedFile (s : DFile) (dst : Name) : DFile :=
  { name := dst, mtime := s.mtime, rows := s.rows,
    headerStyled := s.headerStyled, locked := false, accessible := true }

theorem copiedFile_mem_doCopy {d : List DFile} {s : DFile} {src dst : Name}
    (h : lookup d src = some s) : copiedFile s dst ∈ doCopy d src dst := by
  rw [doCopy, h]
  exact List.mem_append_right _ (List.mem_singleton.2 rfl)

theorem mem_doCopy_elim {d : List DFile} {g : DFile} {src dst : Name}
    (h : g ∈ doCopy d src dst) :
    g ∈ d ∨ ∃ s, lookup d src = some s ∧ g = copiedFile s dst := by
  rw [doCopy] at h
  rcases hl : lookup d src with _ | s
  · rw [hl] at h
    exact Or.inl h
  · rw [hl] at h
    rcases List.mem_append.1 h with h1 | h1
    · exact Or.inl (List.mem_filter.1 h1).1
    · exact Or.inr ⟨s, rfl, (List.mem_singleton.1 h1)⟩

theorem dirNames_doCopy_some {d : List DFile} {s : DFile} {src dst : Name}
    (h : lookup d src = some s) :
    dirNames (doCopy d src dst) =
      dirNames (d.filter (fun f => !(f.name == dst))) ++ [dst] := by
  rw [doCopy, h, dirNames, List.map_append]
  rfl

theorem nodup_dirNames_doCopy {d : List DFile} {src dst : Name}
    (hnd : (dirNames d).Nodup) :
    (dirNames (doCopy d src dst)).Nodup := by
  rcases hl : lookup d src with _ | s
  · rw [doCopy, hl]
    exact hnd
  · rw [dirNames_doCopy_some hl]
    refine List.Nodup.append ?_ (List.nodup_singleton dst) ?_
    · exact nodup_of_sublist (List.filter_sublist d) hnd
    · intro n hn hn1
      rw [List.mem_singleton] at hn1
      subst hn1
      rcases mem_dirNames.1 hn with ⟨f, hf, hfn⟩
      have := (List.mem_filter.1 hf).2
      simp [hfn] at this

theorem not_mem_dirNames_filter_out (d : List DFile) (n : Name) :
    n ∉ dirNames (d.filter (fun f => !(f.name == n))) := by
  intro hn
  rcases mem_dirNames.1 hn with ⟨f, hf, hfn⟩
  have := (List.mem_filter.1 hf).2
  simp [hfn] at this

theorem filter_out_eq_of_not_mem {d : List DFile} {n : Name}
    (h : n ∉ dirNames d) : d.filter (fun f => !(f.name == n)) = d := by
  rw [List.filter_eq_self]
  intro f hf
  have hne : f.name ≠ n := fun he => h (he ▸ name_mem_dirNames hf)
  simp [hne]

theorem all_accessible_of {l : List DFile}
    (h : ∀ g ∈ l, g.accessible = true) :
    (l.all fun f => f.accessible) = true := by
  rw [List.all_eq_true]
  exact h

/-- C7: for every directory state containing no candidate files,
pre-save preparation creates a new file at the canonical
`{user}_inventory.xlsx` path whose only content is the styled header
row with the fixed eight-column schema, adopts that path, and returns
success. -/
theorem c7_no_candidates_creates_header_file (env : SaveEnv)
    (hcur : env.excelFile = get_excel_file env.username)
    (hnc : xlsxCandidates env.dir = [])
    (hu : "~".toList.isPrefixOf env.username = false) :
    manage_excel_files_on_save env =
      { dir := env.dir ++ [freshInventoryFile (get_excel_file env.username) env.now],
        excelFile := get_excel_file env.username, ok := true } ∧
    (freshInventoryFile (get_excel_file env.username) env.now).rows =
      [["Serial", "Model", "Name", "Status", "Checked Out By", "Checked Out At",
        "Serialized Date", "WIP Location"]] ∧
    (freshInventoryFile (get_excel_file env.username) env.now).headerStyled = true := by
  have hno : get_excel_file env.username ∉ dirNames env.dir := by
    intro hmem
    rcases mem_dirNames.1 hmem with ⟨f, hf, hfn⟩
    have hc : isCandidate f = true :=
      isCandidate_get_excel_file env.username hu f hfn
    have hin : f ∈ xlsxCandidates env.dir := mem_xlsxCandidates_of _ f hf hc
    rw [hnc] at hin
    simp at hin
  have hsave : saveNewOk env.dir env.excelFile = true := by
    rw [saveNewOk, lookup_eq_none_of_not_mem (hcur ▸ hno)]
  refine ⟨?_, rfl, rfl⟩
  rw [manage_excel_files_on_save]
  rw [hnc, hsave]
  rw [if_pos rfl]
  rw [saveWorkbook]
  have hfn : (freshInventoryFile env.excelFile env.now).name = env.excelFile := rfl
  rw [hfn, filter_out_eq_of_not_mem (hcur ▸ hno), hcur]

/-- C7 witness: the spec scenario, an empty directory with active user
`carol`. -/
theorem c7_no_candidates_creates_header_file_witness :
    manage_excel_files_on_save
      { username := "carol".toList, excelFile := "carol_inventory.xlsx".toList,
        timestamp := "20250101_000000".toList, now := 7, dir := [] } =
      { dir := [freshInventoryFile ("carol_inventory.xlsx".toList) 7],
        excelFile := "carol_inventory.xlsx".toList, ok := true } :=
  (c7_no_candidates_creates_header_file
    { username := "carol".toList, excelFile := "carol_inventory.xlsx".toList,
      timestamp := "20250101_000000".toList, now := 7, dir := [] }
    (by decide) (by decide) (by decide)).1

/-- C8: pre-save preparation returns a boolean on every input, and when
it reports failure, `checkout_fixture` aborts before touching any
workbook: nothing is written and the directory is exactly as the failed
reconciliation left it. -/
theorem c8_checkout_aborts_on_reconcile_failure (env : SaveEnv)
    (serialRaw personRaw : String) (isWip : Bool)
    (wipLocation checkoutTime : String)
    (h : (manage_excel_files_on_save env).ok = false) :
    checkout_fixture env serialRaw personRaw isWip wipLocation checkoutTime =
      { dir := (manage_excel_files_on_save env).dir,
        excelFile := (manage_excel_files_on_save env).excelFile,
        wrote := false, outcome := CheckoutOutcome.fileError } ∧
    ((manage_excel_files_on_save env).ok = true ∨
      (manage_excel_files_on_save env).ok = false) := by
  refine ⟨?_, Or.inr h⟩
  rw [checkout_fixture, h]
  rfl

/-- C8 witness: a directory holding a permission-blocked candidate makes
pre-save preparation fail, and the checkout call then writes nothing. -/
theorem c8_checkout_aborts_on_reconcile_failure_witness :
    (manage_excel_files_on_save
      { username := "bob".toList, excelFile := "bob_inventory.xlsx".toList,
        timestamp := "20250109_090000".toList, now := 11,
        dir := [⟨"eve_inventory.xlsx".toList, 3, [], false, false, false⟩] }).ok =
      false ∧
    checkout_fixture
      { username := "bob".toList, excelFile := "bob_inventory.xlsx".toList,
        timestamp := "20250109_090000".toList, now := 11,
        dir := [⟨"eve_inventory.xlsx".toList, 3, [], false, false, false⟩] }
      "FX12345" "joe" false ("wip") "2025-01-09 09:00:00" =
      { dir := [⟨"eve_inventory.xlsx".toList, 3, [], false, false, false⟩],
        excelFile := "bob_inventory.xlsx".toList, wrote := false,
        outcome := CheckoutOutcome.fileError } :=
  ⟨by decide,
    (c8_checkout_aborts_on_reconcile_failure
      { username := "bob".toList, excelFile := "bob_inventory.xlsx".toList,
        timestamp := "20250109_090000".toList, now := 11,
        dir := [⟨"eve_inventory.xlsx".toList, 3, [], false, false, false⟩] }
      "FX12345" "joe" false ("wip") "2025-01-09 09:00:00" (by decide)).1.trans
      (by decide)⟩

theorem tryRemove_of_not_mem {d : List DFile} {n : Name}
    (h : n ∉ dirNames d) : tryRemove d n = d := by
  rw [tryRemove, removeOk, lookup_eq_none_of_not_mem h]
  rfl

theorem lookup_cons_ne {d : List DFile} (g : DFile) {n : Name}
    (h : g.name ≠ n) : lookup (g :: d) n = lookup d n := by
  rw [lookup, List.find?_cons_of_neg _ (by simp [h])]
  rfl

theorem removeOk_cons_ne {d : List DFile} (g : DFile) {n : Name}
    (h : g.name ≠ n) : removeOk (g :: d) n = removeOk d n := by
  rw [removeOk, lookup_cons_ne g h, removeOk]

theorem tryRemove_cons_inaccessible {d : List DFile} (g : DFile) (n : Name)
    (hg : g.accessible = false) (hnames : g.name ∉ dirNames d) :
    tryRemove (g :: d) n = g :: tryRemove d n := by
  by_cases h : g.name = n
  · subst h
    have h1 : removeOk (g :: d) g.name = false := by
      rw [removeOk, lookup, List.find?_cons_of_pos _ (by simp)]
      simp [hg]
    rw [tryRemove, h1, tryRemove, removeOk, lookup_eq_none_of_not_mem hnames]
    rfl
  · rw [tryRemove, removeOk_cons_ne g h, tryRemove]
    split
    · rw [List.filter_cons]
      simp [h]
    · rfl

theorem copyOk_cons_ne {d : List DFile} (g : DFile) {src dst : Name}
    (h1 : g.name ≠ src) (h2 : g.name ≠ dst) :
    copyOk (g :: d) src dst = copyOk d src dst := by
  rw [copyOk, lookup_cons_ne g h1, lookup_cons_ne g h2, copyOk]

theorem doCopy_cons_ne {d : List DFile} (g : DFile) {src dst : Name}
    (h1 : g.name ≠ src) (h2 : g.name ≠ dst) :
    doCopy (g :: d) src dst = g :: doCopy d src dst := by
  rcases hl : lookup d src with _ | s
  · rw [doCopy, lookup_cons_ne g h1, hl, doCopy, hl]
  · rw [doCopy, lookup_cons_ne g h1, hl, doCopy, hl, List.filter_cons]
    simp [h2]

theorem mem_dirNames_doCopy {d : List DFile} {src dst n : Name}
    (h : n ∈ dirNames (doCopy d src dst)) : n ∈ dirNames d ∨ n = dst := by
  rcases hl : lookup d src with _ | s
  · rw [doCopy, hl] at h
    exact Or.inl h
  · rw [dirNames_doCopy_some hl] at h
    rcases List.mem_append.1 h with h1 | h1
    · exact Or.inl
        ((dirNames_sublist_of_sublist (List.filter_sublist d)).subset h1)
    · exact Or.inr (List.mem_singleton.1 h1)

theorem deleteMatching_cons_inaccessible (files : List DFile)
    (cond : DFile → Bool) {d : List DFile} (g : DFile)
    (hg : g.accessible = false) (hnames : g.name ∉ dirNames d) :
    deleteMatching files cond (g :: d) = g :: deleteMatching files cond d := by
  induction files generalizing d with
  | nil => rfl
  | cons a t ih =>
    simp only [deleteMatching, List.foldl_cons]
    by_cases hc : cond a = true
    · simp only [if_pos hc, tryRemove_cons_inaccessible g a.name hg hnames]
      exact ih (fun hmem => hnames
        ((dirNames_sublist_of_sublist (tryRemove_sublist d a.name)).subset hmem))
    · simp only [if_neg hc]
      exact ih hnames

theorem deleteMatching_cons_cons_inaccessible (files : List DFile)
    (cond : DFile → Bool) {d : List DFile} (g : DFile)
    (hg : g.accessible = false) (hnames : g.name ∉ dirNames d) :
    deleteMatching (g :: files) cond (g :: d) =
      g :: deleteMatching files cond d := by
  simp only [deleteMatching, List.foldl_cons]
  have hstep : (if cond g = true then tryRemove (g :: d) g.name else g :: d) =
      g :: d := by
    split
    · rw [tryRemove_cons_inaccessible g g.name hg hnames,
        tryRemove_of_not_mem hnames]
    · rfl
  rw [hstep]
  exact deleteMatching_cons_inaccessible files cond g hg hnames

/-- A candidate with an unreadable timestamp aborts
`manage_excel_files_on_save` through the outer handler before any
mutation: the call returns `False` with the directory untouched. -/
theorem manage_fails_of_inaccessible (env : SaveEnv) (f : DFile)
    (hf : f ∈ xlsxCandidates env.dir) (hacc : f.accessible = false) :
    manage_excel_files_on_save env =
      { dir := env.dir, excelFile := env.excelFile, ok := false } := by
  rcases hC : xlsxCandidates env.dir with _ | ⟨f0, rest⟩
  · rw [hC] at hf
    simp at hf
  · have hall : ((f0 :: rest).all fun f => f.accessible) = false := by
      rw [List.all_eq_false]
      exact ⟨f, hC ▸ hf, by simp [hacc]⟩
    simp only [manage_excel_files_on_save, hC]
    rw [hall]
    rfl

theorem get_newest_excel_file_eq_none (d : List DFile)
    (h : accessibleCandidates d = []) : get_newest_excel_file d = none := by
  rcases hC : xlsxCandidates d with _ | ⟨c0, cs⟩
  · simp only [get_newest_excel_file, hC]
  · rw [accessibleCandidates, hC] at h
    simp only [get_newest_excel_file, hC, h]

theorem accessibleCandidates_cons_inaccessible {g : DFile} (d : List DFile)
    (hg : g.accessible = false) :
    accessibleCandidates (g :: d) = accessibleCandidates d := by
  rw [accessibleCandidates, accessibleCandidates, xlsxCandidates_cons]
  split
  · rw [List.filter_cons]
    simp [hg]
  · rfl

theorem get_newest_ignores_inaccessible (d : List DFile) (g : DFile)
    (hg : g.accessible = false) :
    get_newest_excel_file (g :: d) = get_newest_excel_file d := by
  rcases hA : accessibleCandidates d with _ | ⟨a, l⟩
  · rw [get_newest_excel_file_eq_none (g :: d)
      (by rw [accessibleCandidates_cons_inaccessible d hg, hA]),
      get_newest_excel_file_eq_none d hA]
  · rw [get_newest_excel_file_eq_of_acc (g :: d) a l
      (by rw [accessibleCandidates_cons_inaccessible d hg, hA]),
      get_newest_excel_file_eq_of_acc d a l hA]

/-- Inserting a candidate with an unreadable timestamp into the
directory changes nothing about a startup pass except that the file
itself persists: the timestamp loop skips it, the newest selection
never picks it, and every later `os.remove` aimed at it raises and is
caught. -/
theorem prepare_ignores_inaccessible (u ef : Name) (dir : List DFile)
    (g : DFile) (hg : g.accessible = false) (hnames : g.name ∉ dirNames dir)
    (hcur : g.name ≠ ef) :
    prepare_excel_file_on_startup ⟨u, ef, g :: dir⟩ =
      { dir := g :: (prepare_excel_file_on_startup ⟨u, ef, dir⟩).dir,
        excelFile := (prepare_excel_file_on_startup ⟨u, ef, dir⟩).excelFile } := by
  by_cases hcand : isCandidate g = true
  · have hC' : xlsxCandidates (g :: dir) = g :: xlsxCandidates dir := by
      rw [xlsxCandidates_cons, if_pos hcand]
    rcases hC : xlsxCandidates dir with _ | ⟨f0, rest⟩
    · rw [hC] at hC'
      simp only [prepare_excel_file_on_startup, hC', hC]
      simp [List.filter_cons, hg]
    · rw [hC] at hC'
      have hfe : (g :: f0 :: rest).filter (fun f => f.accessible) =
          (f0 :: rest).filter (fun f => f.accessible) := by
        rw [List.filter_cons]
        simp [hg]
      simp only [prepare_excel_file_on_startup, hC', hC, hfe]
      rcases hA : (f0 :: rest).filter (fun f => f.accessible) with _ | ⟨a, l⟩
      · simp [hA]
      · simp only [hA]
        set w := firstNewest1 a l with hw
        have hwmem : w ∈ f0 :: rest := by
          have h1 : w ∈ a :: l := firstNewest1_mem a l
          rw [← hA] at h1
          exact (List.mem_filter.1 h1).1
        have hwdir : w ∈ dir := xlsxCandidates_subset (hC ▸ hwmem)
        have hgw : g.name ≠ w.name := fun he => hnames (he ▸ name_mem_dirNames hwdir)
        by_cases heq : w.name = ef
        · simp only [if_pos heq]
          rw [deleteMatching_cons_cons_inaccessible _ _ g hg hnames]
        · simp only [if_neg heq]
          rw [tryRemove_cons_inaccessible g ef hg hnames]
          have hnA : g.name ∉ dirNames (tryRemove dir ef) := fun hm =>
            hnames ((dirNames_sublist_of_sublist (tryRemove_sublist dir ef)).subset hm)
          rw [copyOk_cons_ne g hgw hcur]
          by_cases hcp : copyOk (tryRemove dir ef) w.name ef = true
          · simp only [if_pos hcp]
            rw [doCopy_cons_ne g hgw hcur]
            have hnB : g.name ∉ dirNames (doCopy (tryRemove dir ef) w.name ef) := by
              intro hm
              rcases mem_dirNames_doCopy hm with h1 | h1
              · exact hnA h1
              · exact hcur h1
            rw [deleteMatching_cons_cons_inaccessible _ _ g hg hnB]
          · simp only [if_neg hcp]
  · have hC' : xlsxCandidates (g :: dir) = xlsxCandidates dir := by
      rw [xlsxCandidates_cons, if_neg hcand]
    rcases hC : xlsxCandidates dir with _ | ⟨f0, rest⟩
    · rw [hC] at hC'
      simp only [prepare_excel_file_on_startup, hC', hC]
    · rw [hC] at hC'
      simp only [prepare_excel_file_on_startup, hC', hC]
      rcases hA : (f0 :: rest).filter (fun f => f.accessible) with _ | ⟨a, l⟩
      · simp [hA]
      · simp only [hA]
        set w := firstNewest1 a l with hw
        have hwmem : w ∈ f0 :: rest := by
          have h1 : w ∈ a :: l := firstNewest1_mem a l
          rw [← hA] at h1
          exact (List.mem_filter.1 h1).1
        have hwdir : w ∈ dir := xlsxCandidates_subset (hC ▸ hwmem)
        have hgw : g.name ≠ w.name := fun he => hnames (he ▸ name_mem_dirNames hwdir)
        by_cases heq : w.name = ef
        · simp only [if_pos heq]
          rw [deleteMatching_cons_inaccessible _ _ g hg hnames]
        · simp only [if_neg heq]
          rw [tryRemove_cons_inaccessible g ef hg hnames]
          have hnA : g.name ∉ dirNames (tryRemove dir ef) := fun hm =>
            hnames ((dirNames_sublist_of_sublist (tryRemove_sublist dir ef)).subset hm)
          rw [copyOk_cons_ne g hgw hcur]
          by_cases hcp : copyOk (tryRemove dir ef) w.name ef = true
          · simp only [if_pos hcp]
            rw [doCopy_cons_ne g hgw hcur]
            have hnB : g.name ∉ dirNames (doCopy (tryRemove dir ef) w.name ef) := by
              intro hm
              rcases mem_dirNames_doCopy hm with h1 | h1
              · exact hnA h1
              · exact hcur h1
            rw [deleteMatching_cons_inaccessible _ _ g hg hnB]
          · simp only [if_neg hcp]

/-- C2 (amended): in the newest-file lookup and in startup preparation,
a candidate whose modification timestamp cannot be read is excluded from
the newest-candidate computation while discovery of the remaining
candidates continues, and no failure is reported; pre-save preparation,
by contrast, has no per-file handler in its timestamp pass: one
unreadable candidate makes the whole call report failure (return
`False`, directory untouched) instead of excluding the file. -/
theorem c2_unreadable_timestamp_handling :
    (∀ (d : List DFile) (g : DFile), g.accessible = false →
      get_newest_excel_file (g :: d) = get_newest_excel_file d) ∧
    (∀ (u ef : Name) (dir : List DFile) (g : DFile), g.accessible = false →
      g.name ∉ dirNames dir → g.name ≠ ef →
      prepare_excel_file_on_startup ⟨u, ef, g :: dir⟩ =
        { dir := g :: (prepare_excel_file_on_startup ⟨u, ef, dir⟩).dir,
          excelFile := (prepare_excel_file_on_startup ⟨u, ef, dir⟩).excelFile }) ∧
    (∀ (env : SaveEnv) (f : DFile), f ∈ xlsxCandidates env.dir →
      f.accessible = false →
      manage_excel_files_on_save env =
        { dir := env.dir, excelFile := env.excelFile, ok := false }) :=
  ⟨fun d g hg => get_newest_ignores_inaccessible d g hg,
    fun u ef dir g hg hn hc => prepare_ignores_inaccessible u ef dir g hg hn hc,
    fun env f hf hacc => manage_fails_of_inaccessible env f hf hacc⟩

/-- C2 witness: concrete instances of the three amended statements. -/
theorem c2_unreadable_timestamp_handling_witness :
    get_newest_excel_file
      [⟨"dora_inventory.xlsx".toList, 99, [], false, false, false⟩,
       ⟨"erin_inventory.xlsx".toList, 1, [], false, false, true⟩] =
      get_newest_excel_file
        [⟨"erin_inventory.xlsx".toList, 1, [], false, false, true⟩] ∧
    prepare_excel_file_on_startup
      ⟨"bob".toList, "bob_inventory.xlsx".toList,
        [⟨"frank_inventory.xlsx".toList, 50, [], false, false, false⟩,
         ⟨"alice_inventory.xlsx".toList, 5, [["r"]], false, false, true⟩]⟩ =
      { dir := ⟨"frank_inventory.xlsx".toList, 50, [], false, false, false⟩ ::
          (prepare_excel_file_on_startup
            ⟨"bob".toList, "bob_inventory.xlsx".toList,
              [⟨"alice_inventory.xlsx".toList, 5, [["r"]], false, false, true⟩]⟩).dir,
        excelFile := (prepare_excel_file_on_startup
          ⟨"bob".toList, "bob_inventory.xlsx".toList,
            [⟨"alice_inventory.xlsx".toList, 5, [["r"]], false, false, true⟩]⟩).excelFile } ∧
    manage_excel_files_on_save
      ⟨"bob".toList, "bob_inventory.xlsx".toList, "t".toList, 0,
        [⟨"gina_inventory.xlsx".toList, 9, [], false, false, false⟩]⟩ =
      { dir := [⟨"gina_inventory.xlsx".toList, 9, [], false, false, false⟩],
        excelFile := "bob_inventory.xlsx".toList, ok := false } :=
  ⟨c2_unreadable_timestamp_handling.1
      [⟨"erin_inventory.xlsx".toList, 1, [], false, false, true⟩]
      ⟨"dora_inventory.xlsx".toList, 99, [], false, false, false⟩ (by decide),
    c2_unreadable_timestamp_handling.2.1 ("bob".toList)
      "bob_inventory.xlsx".toList
      [⟨"alice_inventory.xlsx".toList, 5, [["r"]], false, false, true⟩]
      ⟨"frank_inventory.xlsx".toList, 50, [], false, false, false⟩
      (by decide) (by decide) (by decide),
    c2_unreadable_timestamp_handling.2.2
      ⟨"bob".toList, "bob_inventory.xlsx".toList, "t".toList, 0,
        [⟨"gina_inventory.xlsx".toList, 9, [], false, false, false⟩]⟩
      ⟨"gina_inventory.xlsx".toList, 9, [], false, false, false⟩
      (by decide) (by decide)⟩

/-- C2 counterexample: the claim says a permission error during any
reconciliation call never causes the call to report failure, but
pre-save preparation returns `False` as soon as one candidate's
timestamp is unreadable: its timestamp list comprehension has no
per-file exception handler, so the `PermissionError` reaches the outer
handler. -/
theorem c2_counterexample_presave_reports_failure :
    (manage_excel_files_on_save
      ⟨"bob".toList, "bob_inventory.xlsx".toList, "t".toList, 0,
        [⟨"hank_inventory.xlsx".toList, 9, [], false, false, false⟩,
         ⟨"bob_inventory.xlsx".toList, 3, [], false, false, true⟩]⟩).ok =
      false := by decide

/-- Evaluation of the owned-and-writable pre-save branch when the
newest candidate is not yet at `self.excel_file`: the stale file at
that path (if any) is deleted, the newest is renamed onto it, the other
owned candidates are put through the cleanup loop, the write-probe
succeeds, and the path is adopted. -/
theorem manage_owned_unlocked_step (u ef ts : Name) (now : Nat)
    (dir : List DFile) (f f0 : DFile) (rest : List DFile)
    (hC : xlsxCandidates dir = f0 :: rest)
    (hnew : firstNewest1 f0 rest = f)
    (hall : ((f0 :: rest).all fun x => x.accessible) = true)
    (howned : (ownTag u).isPrefixOf f.name = true)
    (hnl : f.locked = false)
    (hacc : f.accessible = true)
    (hne : f.name ≠ ef)
    (hmem : f ∈ dir)
    (hnd : (dirNames dir).Nodup)
    (hclear : ef ∉ dirNames (tryRemove dir ef)) :
    manage_excel_files_on_save ⟨u, ef, ts, now, dir⟩ =
      { dir := deleteMatching (f0 :: rest)
          (fun x => !(x.name == ef) && (ownTag u).isPrefixOf x.name)
          (doRename (tryRemove dir ef) f.name ef),
        excelFile := ef, ok := true } := by
  have hmemA : f ∈ tryRemove dir ef := mem_tryRemove_of_ne hmem hne
  have hndA : (dirNames (tryRemove dir ef)).Nodup :=
    nodup_of_sublist (tryRemove_sublist dir ef) hnd
  have hren : renameOk (tryRemove dir ef) f.name ef = true := by
    rw [renameOk, lookup_eq_some_self hndA hmemA,
      existsAt_eq_false_of_not_mem hclear]
    simp [hnl]
  have hrmem : { f with name := ef } ∈ doRename (tryRemove dir ef) f.name ef :=
    renamed_mem_doRename hmemA rfl
  have hndR : (dirNames (doRename (tryRemove dir ef) f.name ef)).Nodup :=
    nodup_dirNames_doRename hndA hclear
  have hmem2 : { f with name := ef } ∈ deleteMatching (f0 :: rest)
      (fun x => !(x.name == ef) && (ownTag u).isPrefixOf x.name)
      (doRename (tryRemove dir ef) f.name ef) := by
    refine mem_deleteMatching_of_cond_ne hrmem ?_
    intro h' hh' hc
    have h1 : (h'.name == ef) = false := by
      simp only [Bool.and_eq_true] at hc
      simpa using hc.1
    intro he
    have h2 : h'.name = ef := he
    rw [h2] at h1
    simp at h1
  have hprobe : probeOk (deleteMatching (f0 :: rest)
      (fun x => !(x.name == ef) && (ownTag u).isPrefixOf x.name)
      (doRename (tryRemove dir ef) f.name ef)) ef = true := by
    have hndD : (dirNames (deleteMatching (f0 :: rest)
        (fun x => !(x.name == ef) && (ownTag u).isPrefixOf x.name)
        (doRename (tryRemove dir ef) f.name ef))).Nodup :=
      nodup_of_sublist (deleteMatching_sublist _ _ _) hndR
    have hl : lookup (deleteMatching (f0 :: rest)
        (fun x => !(x.name == ef) && (ownTag u).isPrefixOf x.name)
        (doRename (tryRemove dir ef) f.name ef)) ef =
        some { f with name := ef } :=
      lookup_eq_some_self hndD hmem2
    rw [probeOk, hl]
    simp [hacc, hnl]
  simp only [manage_excel_files_on_save, hC, hnew]
  rw [if_pos hall, if_pos howned, if_neg hne, if_pos hren]
  dsimp only
  rw [if_pos hprobe, if_pos rfl]

/-- Evaluation of the owned-and-writable pre-save branch when the
newest candidate already sits at `self.excel_file`: no rename, cleanup
loop, successful write-probe, adoption. -/
theorem manage_owned_unlocked_at_current_step (u ef ts : Name) (now : Nat)
    (dir : List DFile) (f f0 : DFile) (rest : List DFile)
    (hC : xlsxCandidates dir = f0 :: rest)
    (hnew : firstNewest1 f0 rest = f)
    (hall : ((f0 :: rest).all fun x => x.accessible) = true)
    (howned : (ownTag u).isPrefixOf f.name = true)
    (hnl : f.locked = false) (hacc : f.accessible = true)
    (heq : f.name = ef) (hmem : f ∈ dir) (hnd : (dirNames dir).Nodup) :
    manage_excel_files_on_save ⟨u, ef, ts, now, dir⟩ =
      { dir := deleteMatching (f0 :: rest)
          (fun x => !(x.name == ef) && (ownTag u).isPrefixOf x.name) dir,
        excelFile := ef, ok := true } := by
  have hmem2 : f ∈ deleteMatching (f0 :: rest)
      (fun x => !(x.name == f.name) && (ownTag u).isPrefixOf x.name) dir := by
    refine mem_deleteMatching_of_cond_ne hmem ?_
    intro h' hh' hc
    have h1 : (h'.name == f.name) = false := by
      simp only [Bool.and_eq_true] at hc
      simpa using hc.1
    intro he
    rw [he] at h1
    simp at h1
  have hndD := nodup_of_sublist (deleteMatching_sublist (f0 :: rest)
    (fun x => !(x.name == f.name) && (ownTag u).isPrefixOf x.name) dir) hnd
  have hl : lookup (deleteMatching (f0 :: rest)
      (fun x => !(x.name == f.name) && (ownTag u).isPrefixOf x.name) dir)
      f.name = some f := lookup_eq_some_self hndD hmem2
  have hprobe : probeOk (deleteMatching (f0 :: rest)
      (fun x => !(x.name == f.name) && (ownTag u).isPrefixOf x.name) dir)
      f.name = true := by
    rw [probeOk, hl]
    simp [hacc, hnl]
  simp only [manage_excel_files_on_save, hC, hnew]
  rw [if_pos hall, if_pos howned, if_pos heq]
  dsimp only
  rw [if_pos hprobe, if_pos heq]
  rw [heq]

/-- Evaluation of the owned-but-locked pre-save branch (newest not at
`self.excel_file`): the rename raises and is caught, the cleanup loop
runs, the write-probe fails, a timestamped
`{user}_inventory_{timestamp}.xlsx` copy is made and adopted, and the
old-copies loop runs. -/
theorem manage_owned_locked_step (u ef ts : Name) (now : Nat)
    (dir : List DFile) (f f0 : DFile) (rest : List DFile)
    (hC : xlsxCandidates dir = f0 :: rest)
    (hnew : firstNewest1 f0 rest = f)
    (hall : ((f0 :: rest).all fun x => x.accessible) = true)
    (howned : (ownTag u).isPrefixOf f.name = true)
    (hlk : f.locked = true) (hacc : f.accessible = true)
    (hne : f.name ≠ ef) (hmem : f ∈ dir) (hnd : (dirNames dir).Nodup)
    (hfresh : inventoryCopyName u ts ∉ dirNames dir) :
    manage_excel_files_on_save ⟨u, ef, ts, now, dir⟩ =
      { dir := deleteMatching (f0 :: rest)
          (fun x => !(x.name == inventoryCopyName u ts) && !(x.name == f.name) &&
            (invTag u).isPrefixOf x.name)
          (doCopy (deleteMatching (f0 :: rest)
              (fun x => !(x.name == f.name) && (ownTag u).isPrefixOf x.name)
              (tryRemove dir ef))
            f.name (inventoryCopyName u ts)),
        excelFile := inventoryCopyName u ts, ok := true } := by
  have hmemA : f ∈ tryRemove dir ef := mem_tryRemove_of_ne hmem hne
  have hndA := nodup_of_sublist (tryRemove_sublist dir ef) hnd
  have hrenN : ¬ renameOk (tryRemove dir ef) f.name ef = true := by
    simp [renameOk, lookup_eq_some_self hndA hmemA, hlk]
  have hmem2 : f ∈ deleteMatching (f0 :: rest)
      (fun x => !(x.name == f.name) && (ownTag u).isPrefixOf x.name)
      (tryRemove dir ef) := by
    refine mem_deleteMatching_of_cond_ne hmemA ?_
    intro h' hh' hc
    have h1 : (h'.name == f.name) = false := by
      simp only [Bool.and_eq_true] at hc
      simpa using hc.1
    intro he
    rw [he] at h1
    simp at h1
  have hndD2 := nodup_of_sublist (deleteMatching_sublist (f0 :: rest)
    (fun x => !(x.name == f.name) && (ownTag u).isPrefixOf x.name)
    (tryRemove dir ef)) hndA
  have hl2 : lookup (deleteMatching (f0 :: rest)
      (fun x => !(x.name == f.name) && (ownTag u).isPrefixOf x.name)
      (tryRemove dir ef)) f.name = some f := lookup_eq_some_self hndD2 hmem2
  have hprobeN : ¬ probeOk (deleteMatching (f0 :: rest)
      (fun x => !(x.name == f.name) && (ownTag u).isPrefixOf x.name)
      (tryRemove dir ef)) f.name = true := by
    simp [probeOk, hl2, hlk]
  have hfresh2 : inventoryCopyName u ts ∉ dirNames (deleteMatching (f0 :: rest)
      (fun x => !(x.name == f.name) && (ownTag u).isPrefixOf x.name)
      (tryRemove dir ef)) := fun hmm =>
    hfresh ((dirNames_sublist_of_sublist ((deleteMatching_sublist _ _ _).trans
      (tryRemove_sublist dir ef))).subset hmm)
  have hcopy : copyOk (deleteMatching (f0 :: rest)
      (fun x => !(x.name == f.name) && (ownTag u).isPrefixOf x.name)
      (tryRemove dir ef)) f.name (inventoryCopyName u ts) = true := by
    simp [copyOk, hl2, lookup_eq_none_of_not_mem hfresh2, hacc]
  have hcmem : copiedFile f (inventoryCopyName u ts) ∈
      doCopy (deleteMatching (f0 :: rest)
        (fun x => !(x.name == f.name) && (ownTag u).isPrefixOf x.name)
        (tryRemove dir ef)) f.name (inventoryCopyName u ts) :=
    copiedFile_mem_doCopy hl2
  have hndD3 := @nodup_dirNames_doCopy _ f.name (inventoryCopyName u ts) hndD2
  have hl3 : lookup (doCopy (deleteMatching (f0 :: rest)
      (fun x => !(x.name == f.name) && (ownTag u).isPrefixOf x.name)
      (tryRemove dir ef)) f.name (inventoryCopyName u ts))
      (inventoryCopyName u ts) = some (copiedFile f (inventoryCopyName u ts)) :=
    lookup_eq_some_self hndD3 hcmem
  have hprobe3 : probeOk (doCopy (deleteMatching (f0 :: rest)
      (fun x => !(x.name == f.name) && (ownTag u).isPrefixOf x.name)
      (tryRemove dir ef)) f.name (inventoryCopyName u ts))
      (inventoryCopyName u ts) = true := by
    rw [probeOk, hl3]
    rfl
  simp only [manage_excel_files_on_save, hC, hnew]
  rw [if_pos hall, if_pos howned, if_neg hne, if_neg hrenN]
  dsimp only
  rw [if_neg hprobeN, if_pos hcopy]
  rw [if_pos hprobe3]

/-- Evaluation of the owned-but-locked pre-save branch when the newest
candidate is already at `self.excel_file`. -/
theorem manage_owned_locked_at_current_step (u ef ts : Name) (now : Nat)
    (dir : List DFile) (f f0 : DFile) (rest : List DFile)
    (hC : xlsxCandidates dir = f0 :: rest)
    (hnew : firstNewest1 f0 rest = f)
    (hall : ((f0 :: rest).all fun x => x.accessible) = true)
    (howned : (ownTag u).isPrefixOf f.name = true)
    (hlk : f.locked = true) (hacc : f.accessible = true)
    (heq : f.name = ef) (hmem : f ∈ dir) (hnd : (dirNames dir).Nodup)
    (hfresh : inventoryCopyName u ts ∉ dirNames dir) :
    manage_excel_files_on_save ⟨u, ef, ts, now, dir⟩ =
      { dir := deleteMatching (f0 :: rest)
          (fun x => !(x.name == inventoryCopyName u ts) && !(x.name == ef) &&
            (invTag u).isPrefixOf x.name)
          (doCopy (deleteMatching (f0 :: rest)
              (fun x => !(x.name == ef) && (ownTag u).isPrefixOf x.name)
              dir)
            ef (inventoryCopyName u ts)),
        excelFile := inventoryCopyName u ts, ok := true } := by
  have hmem2 : f ∈ deleteMatching (f0 :: rest)
      (fun x => !(x.name == f.name) && (ownTag u).isPrefixOf x.name) dir := by
    refine mem_deleteMatching_of_cond_ne hmem ?_
    intro h' hh' hc
    have h1 : (h'.name == f.name) = false := by
      simp only [Bool.and_eq_true] at hc
      simpa using hc.1
    intro he
    rw [he] at h1
    simp at h1
  have hndD2 := nodup_of_sublist (deleteMatching_sublist (f0 :: rest)
    (fun x => !(x.name == f.name) && (ownTag u).isPrefixOf x.name) dir) hnd
  have hl2 : lookup (deleteMatching (f0 :: rest)
      (fun x => !(x.name == f.name) && (ownTag u).isPrefixOf x.name) dir)
      f.name = some f := lookup_eq_some_self hndD2 hmem2
  have hprobeN : ¬ probeOk (deleteMatching (f0 :: rest)
      (fun x => !(x.name == f.name) && (ownTag u).isPrefixOf x.name) dir)
      f.name = true := by
    simp [probeOk, hl2, hlk]
  have hfresh2 : inventoryCopyName u ts ∉ dirNames (deleteMatching (f0 :: rest)
      (fun x => !(x.name == f.name) && (ownTag u).isPrefixOf x.name) dir) :=
    fun hmm => hfresh ((dirNames_sublist_of_sublist
      (deleteMatching_sublist _ _ _)).subset hmm)
  have hcopy : copyOk (deleteMatching (f0 :: rest)
      (fun x => !(x.name == f.name) && (ownTag u).isPrefixOf x.name) dir)
      f.name (inventoryCopyName u ts) = true := by
    simp [copyOk, hl2, lookup_eq_none_of_not_mem hfresh2, hacc]
  have hcmem : copiedFile f (inventoryCopyName u ts) ∈
      doCopy (deleteMatching (f0 :: rest)
        (fun x => !(x.name == f.name) && (ownTag u).isPrefixOf x.name) dir)
        f.name (inventoryCopyName u ts) :=
    copiedFile_mem_doCopy hl2
  have hndD3 := @nodup_dirNames_doCopy _ f.name (inventoryCopyName u ts) hndD2
  have hl3 : lookup (doCopy (deleteMatching (f0 :: rest)
      (fun x => !(x.name == f.name) && (ownTag u).isPrefixOf x.name) dir)
      f.name (inventoryCopyName u ts)) (inventoryCopyName u ts) =
      some (copiedFile f (inventoryCopyName u ts)) :=
    lookup_eq_some_self hndD3 hcmem
  have hprobe3 : probeOk (doCopy (deleteMatching (f0 :: rest)
      (fun x => !(x.name == f.name) && (ownTag u).isPrefixOf x.name) dir)
      f.name (inventoryCopyName u ts)) (inventoryCopyName u ts) = true := by
    rw [probeOk, hl3]
    rfl
  simp only [manage_excel_files_on_save, hC, hnew]
  rw [if_pos hall, if_pos howned, if_pos heq]
  dsimp only
  rw [if_neg hprobeN, if_pos hcopy]
  rw [if_pos hprobe3, heq]

/-- Evaluation of the foreign-owner pre-save branch: the newest file is
only read; a `{user}_current_{timestamp}.xlsx` copy of it is created,
probed and adopted, and the cleanup loop deletes the user's other
files. -/
theorem manage_not_owned_step (u ef ts : Name) (now : Nat)
    (dir : List DFile) (f f0 : DFile) (rest : List DFile)
    (hC : xlsxCandidates dir = f0 :: rest)
    (hnew : firstNewest1 f0 rest = f)
    (hall : ((f0 :: rest).all fun x => x.accessible) = true)
    (hnotowned : (ownTag u).isPrefixOf f.name = false)
    (hacc : f.accessible = true)
    (hmem : f ∈ dir) (hnd : (dirNames dir).Nodup)
    (hfresh : currentCopyName u ts ∉ dirNames dir) :
    manage_excel_files_on_save ⟨u, ef, ts, now, dir⟩ =
      { dir := deleteMatching (f0 :: rest)
          (fun x => !(x.name == currentCopyName u ts) &&
            (ownTag u).isPrefixOf x.name)
          (doCopy dir f.name (currentCopyName u ts)),
        excelFile := currentCopyName u ts, ok := true } := by
  have hl : lookup dir f.name = some f := lookup_eq_some_self hnd hmem
  have hcopy : copyOk dir f.name (currentCopyName u ts) = true := by
    simp [copyOk, hl, lookup_eq_none_of_not_mem hfresh, hacc]
  have hcmem : copiedFile f (currentCopyName u ts) ∈
      doCopy dir f.name (currentCopyName u ts) := copiedFile_mem_doCopy hl
  have hndD := @nodup_dirNames_doCopy _ f.name (currentCopyName u ts) hnd
  have hl3 : lookup (doCopy dir f.name (currentCopyName u ts))
      (currentCopyName u ts) = some (copiedFile f (currentCopyName u ts)) :=
    lookup_eq_some_self hndD hcmem
  have hprobe3 : probeOk (doCopy dir f.name (currentCopyName u ts))
      (currentCopyName u ts) = true := by
    rw [probeOk, hl3]
    rfl
  have hnotowned' : ¬ (ownTag u).isPrefixOf f.name = true := by
    rw [hnotowned]
    simp
  simp only [manage_excel_files_on_save, hC, hnew, currentCopyName] at *
  rw [if_pos hall, if_neg hnotowned', if_pos hcopy]
  rw [if_pos hprobe3]

/-- C10: a candidate is classified as owned by the active user exactly
when its basename starts with `{user}_` (`ownedBy`, the test written at
every classification site).  For a single accessible, unlocked
candidate `f` not already at the canonical path: when the prefix test
holds, the pre-save pass renames `f` onto `{user}_inventory.xlsx` (so a
different user's file such as `ana_maria_inventory.xlsx` under active
user `ana` is captured, renamed, and becomes subject to deletion);
when it fails, `f` is never renamed and only a working copy of it is
made. -/
theorem c10_ownership_is_prefix_test (u ts : Name) (now : Nat) (f : DFile)
    (hacc : f.accessible = true) (hnl : f.locked = false)
    (hcand : isCandidate f = true)
    (hne : f.name ≠ get_excel_file u)
    (hfresh : currentCopyName u ts ≠ f.name) :
    (ownedBy u f.name = (ownTag u).isPrefixOf f.name) ∧
    (ownedBy u f.name = true →
      manage_excel_files_on_save ⟨u, get_excel_file u, ts, now, [f]⟩ =
        { dir := [{ f with name := get_excel_file u }],
          excelFile := get_excel_file u, ok := true }) ∧
    (ownedBy u f.name = false →
      manage_excel_files_on_save ⟨u, get_excel_file u, ts, now, [f]⟩ =
        { dir := [f, copiedFile f (currentCopyName u ts)],
          excelFile := currentCopyName u ts, ok := true }) := by
  have hC : xlsxCandidates [f] = [f] := by
    rw [xlsxCandidates_eq, List.filter_cons, if_pos hcand]
    rfl
  have hmem : f ∈ [f] := List.mem_singleton.2 rfl
  have hnd : (dirNames [f]).Nodup := List.nodup_singleton f.name
  have hnmem : get_excel_file u ∉ dirNames [f] := by
    rw [dirNames]
    simp only [List.map_cons, List.map_nil, List.mem_singleton]
    exact fun he => hne he.symm
  refine ⟨rfl, ?_, ?_⟩
  · intro howned
    rw [ownedBy] at howned
    have hclear : get_excel_file u ∉ dirNames (tryRemove [f] (get_excel_file u)) := by
      rw [tryRemove_of_not_mem hnmem]
      exact hnmem
    have hev := manage_owned_unlocked_step u (get_excel_file u) ts now [f] f f []
      hC rfl (by simp [hacc]) howned hnl hacc hne hmem hnd hclear
    rw [hev, tryRemove_of_not_mem hnmem]
    have hdr : doRename [f] f.name (get_excel_file u) =
        [{ f with name := get_excel_file u }] := by
      rw [doRename]
      simp
    rw [hdr]
    have hrm : tryRemove [{ f with name := get_excel_file u }] f.name =
        [{ f with name := get_excel_file u }] := by
      refine tryRemove_of_not_mem ?_
      rw [dirNames]
      simp only [List.map_cons, List.map_nil, List.mem_singleton]
      exact fun he => hne (by simpa using he)
    have hnoop : deleteMatching [f]
        (fun x => !(x.name == get_excel_file u) && (ownTag u).isPrefixOf x.name)
        [{ f with name := get_excel_file u }] =
        [{ f with name := get_excel_file u }] := by
      rw [deleteMatching]
      simp only [List.foldl_cons, List.foldl_nil]
      split
      · exact hrm
      · rfl
    rw [hnoop]
  · intro hnotowned
    rw [ownedBy] at hnotowned
    have hfresh2 : currentCopyName u ts ∉ dirNames [f] := by
      rw [dirNames]
      simp only [List.map_cons, List.map_nil, List.mem_singleton]
      exact hfresh
    have hev := manage_not_owned_step u (get_excel_file u) ts now [f] f f []
      hC rfl (by simp [hacc]) hnotowned hacc hmem hnd hfresh2
    rw [hev]
    have hdc : doCopy [f] f.name (currentCopyName u ts) =
        [f, copiedFile f (currentCopyName u ts)] := by
      rw [doCopy, lookup_eq_some_self hnd hmem, filter_out_eq_of_not_mem hfresh2]
      rfl
    rw [hdc]
    have hcond : (!(f.name == currentCopyName u ts) &&
        (ownTag u).isPrefixOf f.name) = false := by
      rw [hnotowned]
      simp
    have hnoop : deleteMatching [f]
        (fun x => !(x.name == currentCopyName u ts) && (ownTag u).isPrefixOf x.name)
        [f, copiedFile f (currentCopyName u ts)] =
        [f, copiedFile f (currentCopyName u ts)] := by
      have hnc : ¬ ((!(f.name == currentCopyName u ts) &&
          (ownTag u).isPrefixOf f.name) = true) := by
        rw [hcond]
        exact Bool.false_ne_true
      rw [deleteMatching]
      simp only [List.foldl_cons, List.foldl_nil]
      rw [if_neg hnc]
    rw [hnoop]

/-- C10 witness: active user `ana` and the borderline file
`ana_maria_inventory.xlsx`, which belongs to user `ana_maria` but is
classified as ana's own and renamed to `ana_inventory.xlsx`. -/
theorem c10_ownership_is_prefix_test_witness :
    ownedBy ("ana".toList) ("ana_maria_inventory.xlsx".toList) = true ∧
    manage_excel_files_on_save
      ⟨"ana".toList, get_excel_file ("ana".toList), "20250110_101010".toList, 3,
        [⟨"ana_maria_inventory.xlsx".toList, 44, [["m"]], false, false, true⟩]⟩ =
      { dir := [⟨"ana_inventory.xlsx".toList, 44, [["m"]], false, false, true⟩],
        excelFile := "ana_inventory.xlsx".toList, ok := true } := by
  refine ⟨by decide, ?_⟩
  have h := (c10_ownership_is_prefix_test ("ana".toList)
      ("20250110_101010".toList) 3
      ⟨"ana_maria_inventory.xlsx".toList, 44, [["m"]], false, false, true⟩
      (by decide) (by decide) (by decide) (by decide) (by decide)).2.1 (by decide)
  exact h.trans (by decide)

/-- C5 (amended): for every directory state in which every candidate's
timestamp is readable, the newest candidate is owned by a different
user, and the fresh timestamped name is unused: pre-save preparation
never renames or deletes the newest candidate, creates
`{user}_current_{timestamp}.xlsx` as a byte-identical copy of it (and
creates nothing else), adopts the copy, and deletes every other
candidate owned by the active user that is not itself locked. -/
theorem c5_foreign_newest_copied_not_touched (env : SaveEnv) (f : DFile)
    (hnd : (dirNames env.dir).Nodup)
    (hall : ∀ g ∈ xlsxCandidates env.dir, g.accessible = true)
    (hf : f ∈ xlsxCandidates env.dir)
    (hmax : ∀ g ∈ xlsxCandidates env.dir, g ≠ f → g.mtime < f.mtime)
    (hnotowned : ownedBy env.username f.name = false)
    (hfresh : currentCopyName env.username env.timestamp ∉ dirNames env.dir) :
    ((manage_excel_files_on_save env).ok = true) ∧
    ((manage_excel_files_on_save env).excelFile =
      currentCopyName env.username env.timestamp) ∧
    f ∈ (manage_excel_files_on_save env).dir ∧
    copiedFile f (currentCopyName env.username env.timestamp) ∈
      (manage_excel_files_on_save env).dir ∧
    (∀ g ∈ (manage_excel_files_on_save env).dir,
      g ∈ env.dir ∨
        g = copiedFile f (currentCopyName env.username env.timestamp)) ∧
    (∀ g ∈ xlsxCandidates env.dir, ownedBy env.username g.name = true →
      g.locked = false →
      g.name ∉ dirNames (manage_excel_files_on_save env).dir) := by
  obtain ⟨u, ef, ts, now, dir⟩ := env
  dsimp only at *
  rcases hC : xlsxCandidates dir with _ | ⟨f0, rest⟩
  · rw [hC] at hf
    simp at hf
  have hnew : firstNewest1 f0 rest = f := by
    rw [hC] at hf hmax
    exact firstNewest1_eq_of_strict f0 f rest hf hmax
  have hallB : ((f0 :: rest).all fun x => x.accessible) = true := by
    rw [List.all_eq_true]
    intro x hx
    exact hall x (by rw [hC]; exact hx)
  have hmemdir : f ∈ dir := xlsxCandidates_subset hf
  rw [ownedBy] at hnotowned
  have hfne : f.name ≠ currentCopyName u ts := fun he =>
    hfresh (he ▸ name_mem_dirNames hmemdir)
  have hev := manage_not_owned_step u ef ts now dir f f0 rest hC hnew
    hallB hnotowned (hall f hf) hmemdir hnd hfresh
  rw [hev]
  dsimp only
  have hcprotect : ∀ h' ∈ f0 :: rest,
      (!(h'.name == currentCopyName u ts) && (ownTag u).isPrefixOf h'.name) = true →
      h'.name ≠ f.name := by
    intro h' hh' hc he
    simp only [Bool.and_eq_true] at hc
    rw [he] at hc
    rw [hc.2] at hnotowned
    exact absurd hnotowned (by decide)
  have hfdc : f ∈ doCopy dir f.name (currentCopyName u ts) :=
    mem_doCopy_of_ne hmemdir hfne
  have hlf : lookup dir f.name = some f := lookup_eq_some_self hnd hmemdir
  have hndDC : (dirNames (doCopy dir f.name (currentCopyName u ts))).Nodup :=
    @nodup_dirNames_doCopy _ f.name (currentCopyName u ts) hnd
  refine ⟨rfl, rfl, ?_, ?_, ?_, ?_⟩
  · exact mem_deleteMatching_of_cond_ne hfdc hcprotect
  · refine mem_deleteMatching_of_cond_ne (copiedFile_mem_doCopy hlf) ?_
    intro h' hh' hc
    simp only [Bool.and_eq_true] at hc
    intro he
    have h2 : h'.name = currentCopyName u ts := he
    rw [h2] at hc
    simp at hc
  · intro g hg
    have hg2 : g ∈ doCopy dir f.name (currentCopyName u ts) :=
      (deleteMatching_sublist _ _ _).subset hg
    rcases mem_doCopy_elim hg2 with h1 | ⟨s, hs, hgs⟩
    · exact Or.inl h1
    · rw [hlf] at hs
      injection hs with hs2
      rw [hgs, ← hs2]
      exact Or.inr rfl
  · intro g hg hgown hgnl
    have hgC : g ∈ xlsxCandidates dir := by
      rw [hC]
      exact hg
    rw [ownedBy] at hgown
    have hgdir : g ∈ dir := xlsxCandidates_subset hgC
    have hgne : g.name ≠ currentCopyName u ts := fun he =>
      hfresh (he ▸ name_mem_dirNames hgdir)
    have hgdc : g ∈ doCopy dir f.name (currentCopyName u ts) :=
      mem_doCopy_of_ne hgdir hgne
    have hcond : (!(g.name == currentCopyName u ts) &&
        (ownTag u).isPrefixOf g.name) = true := by
      rw [hgown]
      simp [hgne]
    exact not_mem_names_deleteMatching hndDC hgdc hg hcond (hall g hgC) hgnl

/-- C5 witness: the spec scenario — `alice_inventory.xlsx` newer,
`bob_inventory.xlsx` older, active user `bob`: a byte-identical
`bob_current_<timestamp>.xlsx` appears, alice's file is untouched, and
bob's other file is gone. -/
theorem c5_foreign_newest_copied_not_touched_witness :
    (manage_excel_files_on_save
      ⟨"bob".toList, "bob_inventory.xlsx".toList, "20250102_111111".toList, 9,
        [⟨"alice_inventory.xlsx".toList, 10, [["x"]], false, false, true⟩,
         ⟨"bob_inventory.xlsx".toList, 5, [["y"]], false, false, true⟩]⟩).ok =
      true ∧
    (manage_excel_files_on_save
      ⟨"bob".toList, "bob_inventory.xlsx".toList, "20250102_111111".toList, 9,
        [⟨"alice_inventory.xlsx".toList, 10, [["x"]], false, false, true⟩,
         ⟨"bob_inventory.xlsx".toList, 5, [["y"]], false, false, true⟩]⟩).excelFile =
      currentCopyName ("bob".toList) ("20250102_111111".toList) ∧
    (⟨"alice_inventory.xlsx".toList, 10, [["x"]], false, false, true⟩ : DFile) ∈
      (manage_excel_files_on_save
        ⟨"bob".toList, "bob_inventory.xlsx".toList, "20250102_111111".toList, 9,
          [⟨"alice_inventory.xlsx".toList, 10, [["x"]], false, false, true⟩,
           ⟨"bob_inventory.xlsx".toList, 5, [["y"]], false, false, true⟩]⟩).dir ∧
    copiedFile ⟨"alice_inventory.xlsx".toList, 10, [["x"]], false, false, true⟩
        (currentCopyName ("bob".toList) ("20250102_111111".toList)) ∈
      (manage_excel_files_on_save
        ⟨"bob".toList, "bob_inventory.xlsx".toList, "20250102_111111".toList, 9,
          [⟨"alice_inventory.xlsx".toList, 10, [["x"]], false, false, true⟩,
           ⟨"bob_inventory.xlsx".toList, 5, [["y"]], false, false, true⟩]⟩).dir ∧
    "bob_inventory.xlsx".toList ∉
      dirNames (manage_excel_files_on_save
        ⟨"bob".toList, "bob_inventory.xlsx".toList, "20250102_111111".toList, 9,
          [⟨"alice_inventory.xlsx".toList, 10, [["x"]], false, false, true⟩,
           ⟨"bob_inventory.xlsx".toList, 5, [["y"]], false, false, true⟩]⟩).dir := by
  have h := c5_foreign_newest_copied_not_touched
    ⟨"bob".toList, "bob_inventory.xlsx".toList, "20250102_111111".toList, 9,
      [⟨"alice_inventory.xlsx".toList, 10, [["x"]], false, false, true⟩,
       ⟨"bob_inventory.xlsx".toList, 5, [["y"]], false, false, true⟩]⟩
    ⟨"alice_inventory.xlsx".toList, 10, [["x"]], false, false, true⟩
    (by decide) (by decide) (by decide) (by decide) (by decide) (by decide)
  exact ⟨h.1, h.2.1, h.2.2.1, h.2.2.2.1,
    h.2.2.2.2.2 ⟨"bob_inventory.xlsx".toList, 5, [["y"]], false, false, true⟩
      (by decide) (by decide) (by decide)⟩

/-- C5 counterexample: a directory whose newest accessible candidate is
another user's file (the claim's hypothesis) but holding one candidate
with an unreadable timestamp: pre-save preparation reports failure and
creates no working copy at all, so the claim as stated is false. -/
theorem c5_counterexample_inaccessible_candidate :
    manage_excel_files_on_save
      ⟨"bob".toList, "bob_inventory.xlsx".toList, "t1".toList, 0,
        [⟨"alice_inventory.xlsx".toList, 10, [], false, false, true⟩,
         ⟨"bob_inventory.xlsx".toList, 5, [], false, false, true⟩,
         ⟨"chuck_inventory.xlsx".toList, 1, [], false, false, false⟩]⟩ =
      { dir := [⟨"alice_inventory.xlsx".toList, 10, [], false, false, true⟩,
                ⟨"bob_inventory.xlsx".toList, 5, [], false, false, true⟩,
                ⟨"chuck_inventory.xlsx".toList, 1, [], false, false, false⟩],
        excelFile := "bob_inventory.xlsx".toList, ok := false } := by decide

/-- C4 (amended): for every directory state in which every candidate's
timestamp is readable, the newest candidate is owned by the active user
but locked, and the timestamped name is unused: pre-save preparation
creates exactly one new file, the working copy
`{user}_inventory_{timestamp}.xlsx` duplicating the locked file's
bytes, adopts it, returns success, leaves the locked original present
and unmodified, and deletes the user's other candidates (in particular
older timestamped working copies) that are not themselves locked. -/
theorem c4_locked_owned_newest_working_copy (env : SaveEnv) (f : DFile)
    (hnd : (dirNames env.dir).Nodup)
    (hall : ∀ g ∈ xlsxCandidates env.dir, g.accessible = true)
    (hf : f ∈ xlsxCandidates env.dir)
    (hmax : ∀ g ∈ xlsxCandidates env.dir, g ≠ f → g.mtime < f.mtime)
    (howned : ownedBy env.username f.name = true)
    (hlk : f.locked = true)
    (hfresh : inventoryCopyName env.username env.timestamp ∉ dirNames env.dir) :
    ((manage_excel_files_on_save env).ok = true) ∧
    ((manage_excel_files_on_save env).excelFile =
      inventoryCopyName env.username env.timestamp) ∧
    f ∈ (manage_excel_files_on_save env).dir ∧
    copiedFile f (inventoryCopyName env.username env.timestamp) ∈
      (manage_excel_files_on_save env).dir ∧
    (∀ g ∈ (manage_excel_files_on_save env).dir,
      g ∈ env.dir ∨
        g = copiedFile f (inventoryCopyName env.username env.timestamp)) ∧
    (∀ g ∈ xlsxCandidates env.dir, ownedBy env.username g.name = true →
      g ≠ f → g.locked = false →
      g.name ∉ dirNames (manage_excel_files_on_save env).dir) := by
  obtain ⟨u, ef, ts, now, dir⟩ := env
  dsimp only at *
  rcases hC : xlsxCandidates dir with _ | ⟨f0, rest⟩
  · rw [hC] at hf
    simp at hf
  have hnew : firstNewest1 f0 rest = f := by
    rw [hC] at hf hmax
    exact firstNewest1_eq_of_strict f0 f rest hf hmax
  have hallB : ((f0 :: rest).all fun x => x.accessible) = true := by
    rw [List.all_eq_true]
    intro x hx
    exact hall x (by rw [hC]; exact hx)
  have hmemdir : f ∈ dir := xlsxCandidates_subset hf
  have hacc : f.accessible = true := hall f hf
  rw [ownedBy] at howned
  have hfne : f.name ≠ inventoryCopyName u ts := fun he =>
    hfresh (he ▸ name_mem_dirNames hmemdir)
  have hnameNe : ∀ g ∈ xlsxCandidates dir, g ≠ f → g.name ≠ f.name := by
    intro g hg hgf he
    have h1 := lookup_eq_some_self hnd (xlsxCandidates_subset hg)
    have h2 := lookup_eq_some_self hnd hmemdir
    rw [he] at h1
    rw [h1] at h2
    injection h2 with h3
    exact hgf h3
  by_cases heq : f.name = ef
  · have hev := manage_owned_locked_at_current_step u ef ts now dir f f0 rest
      hC hnew hallB howned hlk hacc heq hmemdir hnd hfresh
    rw [hev]
    dsimp only
    have hprotect1 : ∀ h' ∈ f0 :: rest,
        (!(h'.name == ef) && (ownTag u).isPrefixOf h'.name) = true →
        h'.name ≠ f.name := by
      intro h' hh' hc he
      simp only [Bool.and_eq_true] at hc
      rw [he, heq] at hc
      simp at hc
    have hmem1 : f ∈ deleteMatching (f0 :: rest)
        (fun x => !(x.name == ef) && (ownTag u).isPrefixOf x.name) dir :=
      mem_deleteMatching_of_cond_ne hmemdir hprotect1
    have hnd1 := nodup_of_sublist (deleteMatching_sublist (f0 :: rest)
      (fun x => !(x.name == ef) && (ownTag u).isPrefixOf x.name) dir) hnd
    have hlook1 : lookup (deleteMatching (f0 :: rest)
        (fun x => !(x.name == ef) && (ownTag u).isPrefixOf x.name) dir) ef =
        some f := by
      have h0 := lookup_eq_some_self hnd1 hmem1
      rwa [heq] at h0
    have hcmem : copiedFile f (inventoryCopyName u ts) ∈
        doCopy (deleteMatching (f0 :: rest)
          (fun x => !(x.name == ef) && (ownTag u).isPrefixOf x.name) dir)
          ef (inventoryCopyName u ts) := copiedFile_mem_doCopy hlook1
    have hfdc : f ∈ doCopy (deleteMatching (f0 :: rest)
        (fun x => !(x.name == ef) && (ownTag u).isPrefixOf x.name) dir)
        ef (inventoryCopyName u ts) := mem_doCopy_of_ne hmem1 hfne
    have hprotect4f : ∀ h' ∈ f0 :: rest,
        (!(h'.name == inventoryCopyName u ts) && !(h'.name == ef) &&
          (invTag u).isPrefixOf h'.name) = true → h'.name ≠ f.name := by
      intro h' hh' hc he
      simp only [Bool.and_eq_true] at hc
      rw [he, heq] at hc
      rcases hc with ⟨⟨_, hc2⟩, _⟩
      simp at hc2
    have hprotect4c : ∀ h' ∈ f0 :: rest,
        (!(h'.name == inventoryCopyName u ts) && !(h'.name == ef) &&
          (invTag u).isPrefixOf h'.name) = true →
        h'.name ≠ (copiedFile f (inventoryCopyName u ts)).name := by
      intro h' hh' hc he
      simp only [Bool.and_eq_true] at hc
      have h2 : h'.name = inventoryCopyName u ts := he
      rw [h2] at hc
      rcases hc with ⟨⟨hc1, _⟩, _⟩
      simp at hc1
    refine ⟨rfl, rfl, ?_, ?_, ?_, ?_⟩
    · exact mem_deleteMatching_of_cond_ne hfdc hprotect4f
    · exact mem_deleteMatching_of_cond_ne hcmem hprotect4c
    · intro g hg
      have hg2 := (deleteMatching_sublist _ _ _).subset hg
      rcases mem_doCopy_elim hg2 with h1 | ⟨s, hs, hgs⟩
      · exact Or.inl ((deleteMatching_sublist _ _ _).subset h1)
      · rw [hlook1] at hs
        injection hs with hs2
        rw [hgs, ← hs2]
        exact Or.inr rfl
    · intro g hg hgown hgf hgnl
      have hgC : g ∈ xlsxCandidates dir := by
        rw [hC]
        exact hg
      rw [ownedBy] at hgown
      have hgdir : g ∈ dir := xlsxCandidates_subset hgC
      have hgne : g.name ≠ inventoryCopyName u ts := fun he =>
        hfresh (he ▸ name_mem_dirNames hgdir)
      have hgnf : g.name ≠ f.name := hnameNe g hgC hgf
      have hcond1 : (!(g.name == ef) && (ownTag u).isPrefixOf g.name) = true := by
        rw [hgown]
        simp [heq ▸ hgnf]
      have hnin1 : g.name ∉ dirNames (deleteMatching (f0 :: rest)
          (fun x => !(x.name == ef) && (ownTag u).isPrefixOf x.name) dir) :=
        not_mem_names_deleteMatching hnd hgdir hg hcond1 (hall g hgC) hgnl
      intro hginD
      have hginDC := (dirNames_sublist_of_sublist
        (deleteMatching_sublist _ _ _)).subset hginD
      rcases mem_dirNames_doCopy hginDC with h1 | h1
      · exact hnin1 h1
      · exact hgne h1
  · have hev := manage_owned_locked_step u ef ts now dir f f0 rest
      hC hnew hallB howned hlk hacc heq hmemdir hnd hfresh
    rw [hev]
    dsimp only
    have hfb : f ∈ tryRemove dir ef := mem_tryRemove_of_ne hmemdir heq
    have hndb := nodup_of_sublist (tryRemove_sublist dir ef) hnd
    have hprotect1 : ∀ h' ∈ f0 :: rest,
        (!(h'.name == f.name) && (ownTag u).isPrefixOf h'.name) = true →
        h'.name ≠ f.name := by
      intro h' hh' hc he
      simp only [Bool.and_eq_true] at hc
      rw [he] at hc
      rcases hc with ⟨hc1, _⟩
      simp at hc1
    have hmem1 : f ∈ deleteMatching (f0 :: rest)
        (fun x => !(x.name == f.name) && (ownTag u).isPrefixOf x.name)
        (tryRemove dir ef) := mem_deleteMatching_of_cond_ne hfb hprotect1
    have hnd1 := nodup_of_sublist (deleteMatching_sublist (f0 :: rest)
      (fun x => !(x.name == f.name) && (ownTag u).isPrefixOf x.name)
      (tryRemove dir ef)) hndb
    have hlook1 : lookup (deleteMatching (f0 :: rest)
        (fun x => !(x.name == f.name) && (ownTag u).isPrefixOf x.name)
        (tryRemove dir ef)) f.name = some f := lookup_eq_some_self hnd1 hmem1
    have hcmem : copiedFile f (inventoryCopyName u ts) ∈
        doCopy (deleteMatching (f0 :: rest)
          (fun x => !(x.name == f.name) && (ownTag u).isPrefixOf x.name)
          (tryRemove dir ef)) f.name (inventoryCopyName u ts) :=
      copiedFile_mem_doCopy hlook1
    have hfdc : f ∈ doCopy (deleteMatching (f0 :: rest)
        (fun x => !(x.name == f.name) && (ownTag u).isPrefixOf x.name)
        (tryRemove dir ef)) f.name (inventoryCopyName u ts) :=
      mem_doCopy_of_ne hmem1 hfne
    have hprotect4f : ∀ h' ∈ f0 :: rest,
        (!(h'.name == inventoryCopyName u ts) && !(h'.name == f.name) &&
          (invTag u).isPrefixOf h'.name) = true → h'.name ≠ f.name := by
      intro h' hh' hc he
      simp only [Bool.and_eq_true] at hc
      rw [he] at hc
      rcases hc with ⟨⟨_, hc2⟩, _⟩
      simp at hc2
    have hprotect4c : ∀ h' ∈ f0 :: rest,
        (!(h'.name == inventoryCopyName u ts) && !(h'.name == f.name) &&
          (invTag u).isPrefixOf h'.name) = true →
        h'.name ≠ (copiedFile f (inventoryCopyName u ts)).name := by
      intro h' hh' hc he
      simp only [Bool.and_eq_true] at hc
      have h2 : h'.name = inventoryCopyName u ts := he
      rw [h2] at hc
      rcases hc with ⟨⟨hc1, _⟩, _⟩
      simp at hc1
    refine ⟨rfl, rfl, ?_, ?_, ?_, ?_⟩
    · exact mem_deleteMatching_of_cond_ne hfdc hprotect4f
    · exact mem_deleteMatching_of_cond_ne hcmem hprotect4c
    · intro g hg
      have hg2 := (deleteMatching_sublist _ _ _).subset hg
      rcases mem_doCopy_elim hg2 with h1 | ⟨s, hs, hgs⟩
      · exact Or.inl ((tryRemove_sublist dir ef).subset
          ((deleteMatching_sublist _ _ _).subset h1))
      · rw [hlook1] at hs
        injection hs with hs2
        rw [hgs, ← hs2]
        exact Or.inr rfl
    · intro g hg hgown hgf hgnl
      have hgC : g ∈ xlsxCandidates dir := by
        rw [hC]
        exact hg
      rw [ownedBy] at hgown
      have hgdir : g ∈ dir := xlsxCandidates_subset hgC
      have hgne : g.name ≠ inventoryCopyName u ts := fun he =>
        hfresh (he ▸ name_mem_dirNames hgdir)
      have hgnf : g.name ≠ f.name := hnameNe g hgC hgf
      have hnin1 : g.name ∉ dirNames (deleteMatching (f0 :: rest)
          (fun x => !(x.name == f.name) && (ownTag u).isPrefixOf x.name)
          (tryRemove dir ef)) := by
        by_cases hgef : g.name = ef
        · have hok : removeOk dir ef = true := by
            rw [removeOk, ← hgef, lookup_eq_some_self hnd hgdir]
            dsimp only
            rw [hall g hgC, hgnl]
            rfl
          have h1 : g.name ∉ dirNames (tryRemove dir ef) := by
            rw [hgef]
            exact not_mem_names_tryRemove hok
          intro hmm
          exact h1 ((dirNames_sublist_of_sublist
            (deleteMatching_sublist _ _ _)).subset hmm)
        · have hgb : g ∈ tryRemove dir ef := mem_tryRemove_of_ne hgdir hgef
          have hcond1 : (!(g.name == f.name) && (ownTag u).isPrefixOf g.name) = true := by
            rw [hgown]
            simp [hgnf]
          exact not_mem_names_deleteMatching hndb hgb hg hcond1 (hall g hgC) hgnl
      intro hginD
      have hginDC := (dirNames_sublist_of_sublist
        (deleteMatching_sublist _ _ _)).subset hginD
      rcases mem_dirNames_doCopy hginDC with h1 | h1
      · exact hnin1 h1
      · exact hgne h1

/-- C4 witness: bob's canonical file is newest but locked, an older
working copy of bob's exists: one new timestamped copy appears and is
adopted, the locked original is untouched, the old working copy is
gone. -/
theorem c4_locked_owned_newest_working_copy_witness :
    (manage_excel_files_on_save
      ⟨"bob".toList, "bob_inventory.xlsx".toList, "20250601_120000".toList, 2,
        [⟨"bob_inventory.xlsx".toList, 10, [["d"]], false, true, true⟩,
         ⟨"bob_inventory_20240101_000000.xlsx".toList, 3, [["o"]], false, false, true⟩]⟩).ok =
      true ∧
    (manage_excel_files_on_save
      ⟨"bob".toList, "bob_inventory.xlsx".toList, "20250601_120000".toList, 2,
        [⟨"bob_inventory.xlsx".toList, 10, [["d"]], false, true, true⟩,
         ⟨"bob_inventory_20240101_000000.xlsx".toList, 3, [["o"]], false, false, true⟩]⟩).excelFile =
      inventoryCopyName ("bob".toList) ("20250601_120000".toList) ∧
    (⟨"bob_inventory.xlsx".toList, 10, [["d"]], false, true, true⟩ : DFile) ∈
      (manage_excel_files_on_save
        ⟨"bob".toList, "bob_inventory.xlsx".toList, "20250601_120000".toList, 2,
          [⟨"bob_inventory.xlsx".toList, 10, [["d"]], false, true, true⟩,
           ⟨"bob_inventory_20240101_000000.xlsx".toList, 3, [["o"]], false, false, true⟩]⟩).dir ∧
    copiedFile ⟨"bob_inventory.xlsx".toList, 10, [["d"]], false, true, true⟩
        (inventoryCopyName ("bob".toList) ("20250601_120000".toList)) ∈
      (manage_excel_files_on_save
        ⟨"bob".toList, "bob_inventory.xlsx".toList, "20250601_120000".toList, 2,
          [⟨"bob_inventory.xlsx".toList, 10, [["d"]], false, true, true⟩,
           ⟨"bob_inventory_20240101_000000.xlsx".toList, 3, [["o"]], false, false, true⟩]⟩).dir ∧
    "bob_inventory_20240101_000000.xlsx".toList ∉
      dirNames (manage_excel_files_on_save
        ⟨"bob".toList, "bob_inventory.xlsx".toList, "20250601_120000".toList, 2,
          [⟨"bob_inventory.xlsx".toList, 10, [["d"]], false, true, true⟩,
           ⟨"bob_inventory_20240101_000000.xlsx".toList, 3, [["o"]], false, false, true⟩]⟩).dir := by
  have h := c4_locked_owned_newest_working_copy
    ⟨"bob".toList, "bob_inventory.xlsx".toList, "20250601_120000".toList, 2,
      [⟨"bob_inventory.xlsx".toList, 10, [["d"]], false, true, true⟩,
       ⟨"bob_inventory_20240101_000000.xlsx".toList, 3, [["o"]], false, false, true⟩]⟩
    ⟨"bob_inventory.xlsx".toList, 10, [["d"]], false, true, true⟩
    (by decide) (by decide) (by decide) (by decide) (by decide) (by decide)
    (by decide)
  exact ⟨h.1, h.2.1, h.2.2.1, h.2.2.2.1,
    h.2.2.2.2.2
      ⟨"bob_inventory_20240101_000000.xlsx".toList, 3, [["o"]], false, false, true⟩
      (by decide) (by decide) (by decide) (by decide)⟩

/-- C4 counterexample: the newest accessible candidate is the active
user's locked file (the claim's hypothesis), but a further candidate's
timestamp is unreadable: pre-save preparation reports failure and
creates no working copy, so the claim as stated is false. -/
theorem c4_counterexample_inaccessible_candidate :
    manage_excel_files_on_save
      ⟨"bob".toList, "bob_inventory.xlsx".toList, "t2".toList, 0,
        [⟨"bob_inventory.xlsx".toList, 10, [], false, true, true⟩,
         ⟨"dave_inventory.xlsx".toList, 1, [], false, false, false⟩]⟩ =
      { dir := [⟨"bob_inventory.xlsx".toList, 10, [], false, true, true⟩,
                ⟨"dave_inventory.xlsx".toList, 1, [], false, false, false⟩],
        excelFile := "bob_inventory.xlsx".toList, ok := false } := by decide

theorem not_mem_of_lookup_eq_none {d : List DFile} {n : Name}
    (h : lookup d n = none) : n ∉ dirNames d := by
  rw [lookup, List.find?_eq_none] at h
  intro hm
  rcases mem_dirNames.1 hm with ⟨x, hx, hxn⟩
  exact h x hx (by simp [hxn])

/-- A name matching the glob `{user}_inventory*.xlsx` carries the
`{user}_` ownership marker. -/
theorem ownedBy_of_inventoryPat {u n : Name}
    (h : (u ++ "_inventory".toList).isPrefixOf n = true) :
    ownedBy u n = true := by
  rw [ List.isPrefixOf_iff_prefix] at h
  rw [ownedBy, ownTag, List.isPrefixOf_iff_prefix]
  refine List.IsPrefix.trans ?_ h
  have heq2 : u ++ "_".toList ++ "inventory".toList = u ++ "_inventory".toList := by
    rw [List.append_assoc]
    rfl
  rw [← heq2]
  exact List.prefix_append _ _

/-- The canonical path itself matches `{user}_inventory*.xlsx`. -/
theorem inventoryPat_get_excel_file (u : Name) :
    (u ++ "_inventory".toList).isPrefixOf (get_excel_file u) = true := by
  rw [ List.isPrefixOf_iff_prefix, get_excel_file]
  have h : u ++ "_inventory".toList ++ ".xlsx".toList =
      u ++ "_inventory.xlsx".toList := by
    rw [List.append_assoc]
    rfl
  rw [← h]
  exact List.prefix_append _ _

/-- In a listing with distinct basenames, a predicate all of whose
holders carry one fixed basename has exactly one holder once it has
any. -/
theorem length_filter_eq_one_of (l : List DFile) (p : DFile → Bool)
    (c : Name) (hnd : (dirNames l).Nodup) (x : DFile) (hx : x ∈ l)
    (hpx : p x = true) (hallc : ∀ g ∈ l, p g = true → g.name = c) :
    (l.filter p).length = 1 := by
  have hxF : x ∈ l.filter p := List.mem_filter.2 ⟨hx, hpx⟩
  have hndF : (dirNames (l.filter p)).Nodup :=
    nodup_of_sublist (List.filter_sublist l) hnd
  rcases hF : l.filter p with _ | ⟨a, t⟩
  · rw [hF] at hxF
    simp at hxF
  · rcases t with _ | ⟨b, t2⟩
    · rfl
    · exfalso
      rw [hF] at hndF
      have ha : a ∈ l.filter p := by
        rw [hF]
        exact List.mem_cons_self _ _
      have hb : b ∈ l.filter p := by
        rw [hF]
        exact List.mem_cons_of_mem a (List.mem_cons_self _ _)
      have han : a.name = c :=
        hallc a (List.mem_filter.1 ha).1 (List.mem_filter.1 ha).2
      have hbn : b.name = c :=
        hallc b (List.mem_filter.1 hb).1 (List.mem_filter.1 hb).2
      rw [dirNames, List.map_cons, List.map_cons, List.nodup_cons] at hndF
      exact hndF.1 (by
        rw [han, ← hbn]
        exact List.mem_cons_self _ _)

/-- C3 (amended): for every directory state in which every candidate's
timestamp is readable, the newest candidate is owned by the active user
and not locked, and no other user-owned candidate is locked (in
particular any stale file at the canonical path is removable): pre-save
preparation renames the newest candidate to `{user}_inventory.xlsx`
(deleting the stale file at that name), deletes every other candidate
owned by the active user, adopts the canonical path, returns success,
and afterwards exactly one file matching `{user}_inventory*.xlsx`
remains. -/
theorem c3_owned_writable_newest_consolidated (env : SaveEnv) (f : DFile)
    (hnd : (dirNames env.dir).Nodup)
    (hu : tempMark.isPrefixOf env.username = false)
    (hcur : env.excelFile = get_excel_file env.username)
    (hall : ∀ g ∈ xlsxCandidates env.dir, g.accessible = true)
    (hf : f ∈ xlsxCandidates env.dir)
    (hmax : ∀ g ∈ xlsxCandidates env.dir, g ≠ f → g.mtime < f.mtime)
    (howned : ownedBy env.username f.name = true)
    (hnl : f.locked = false)
    (hothers : ∀ g ∈ xlsxCandidates env.dir, ownedBy env.username g.name = true →
      g ≠ f → g.locked = false) :
    ((manage_excel_files_on_save env).ok = true) ∧
    ((manage_excel_files_on_save env).excelFile =
      get_excel_file env.username) ∧
    { f with name := get_excel_file env.username } ∈
      (manage_excel_files_on_save env).dir ∧
    (∀ g ∈ xlsxCandidates env.dir, ownedBy env.username g.name = true →
      g ≠ f → g ∉ (manage_excel_files_on_save env).dir) ∧
    (((manage_excel_files_on_save env).dir.filter (fun g =>
      (env.username ++ "_inventory".toList).isPrefixOf g.name &&
        xlsxExt.isSuffixOf g.name)).length = 1) := by
  obtain ⟨u, ef, ts, now, dir⟩ := env
  dsimp only at *
  subst hcur
  rcases hC : xlsxCandidates dir with _ | ⟨f0, rest⟩
  · rw [hC] at hf
    simp at hf
  have hnew : firstNewest1 f0 rest = f := by
    rw [hC] at hf hmax
    exact firstNewest1_eq_of_strict f0 f rest hf hmax
  have hallB : ((f0 :: rest).all fun x => x.accessible) = true := by
    rw [List.all_eq_true]
    intro x hx
    exact hall x (by rw [hC]; exact hx)
  have hmemdir : f ∈ dir := xlsxCandidates_subset hf
  have hacc : f.accessible = true := hall f hf
  rw [ownedBy] at howned
  have hnameNe : ∀ g ∈ xlsxCandidates dir, g ≠ f → g.name ≠ f.name := by
    intro g hg hgf he
    have h1 := lookup_eq_some_self hnd (xlsxCandidates_subset hg)
    have h2 := lookup_eq_some_self hnd hmemdir
    rw [he] at h1
    rw [h1] at h2
    injection h2 with h3
    exact hgf h3
  have hgenC : ∀ g : DFile, g ∈ dir →
      (u ++ "_inventory".toList).isPrefixOf g.name = true →
      xlsxExt.isSuffixOf g.name = true → g ∈ xlsxCandidates dir := by
    intro g hgdir hpre hsuf
    refine mem_xlsxCandidates_of dir g hgdir ?_
    have how : ownedBy u g.name = true := ownedBy_of_inventoryPat hpre
    rw [ownedBy] at how
    exact isCandidate_of_name u g hsuf how hu
  by_cases heq : f.name = get_excel_file u
  · have hev := manage_owned_unlocked_at_current_step u (get_excel_file u) ts now
      dir f f0 rest hC hnew hallB howned hnl hacc heq hmemdir hnd
    rw [hev]
    dsimp only
    have hprotf : ∀ h' ∈ f0 :: rest,
        (!(h'.name == get_excel_file u) && (ownTag u).isPrefixOf h'.name) = true →
        h'.name ≠ f.name := by
      intro h' hh' hc he
      simp only [Bool.and_eq_true] at hc
      rw [he, heq] at hc
      simp at hc
    have hfD : f ∈ deleteMatching (f0 :: rest)
        (fun x => !(x.name == get_excel_file u) && (ownTag u).isPrefixOf x.name)
        dir := mem_deleteMatching_of_cond_ne hmemdir hprotf
    have hfeq : ({ f with name := get_excel_file u } : DFile) = f := by
      rcases f with ⟨n, m, r, hs, l, a⟩
      dsimp only at heq
      rw [heq]
    have hdel : ∀ g ∈ xlsxCandidates dir, ownedBy u g.name = true → g ≠ f →
        g ∉ deleteMatching (f0 :: rest)
          (fun x => !(x.name == get_excel_file u) && (ownTag u).isPrefixOf x.name)
          dir := by
      intro g hg hgown hgf hginD
      rw [ownedBy] at hgown
      have hgnf : g.name ≠ f.name := hnameNe g hg hgf
      have hcond : (!(g.name == get_excel_file u) &&
          (ownTag u).isPrefixOf g.name) = true := by
        rw [hgown]
        simp [heq ▸ hgnf]
      exact not_mem_names_deleteMatching hnd (xlsxCandidates_subset hg)
        (by rw [← hC]; exact hg) hcond (hall g hg) (hothers g hg (by rw [ownedBy]; exact hgown) hgf)
        (name_mem_dirNames hginD)
    have hpat : ∀ g ∈ deleteMatching (f0 :: rest)
        (fun x => !(x.name == get_excel_file u) && (ownTag u).isPrefixOf x.name) dir,
        ((u ++ "_inventory".toList).isPrefixOf g.name &&
          xlsxExt.isSuffixOf g.name) = true → g.name = get_excel_file u := by
      intro g hgD hp
      simp only [Bool.and_eq_true] at hp
      have hgdir : g ∈ dir := (deleteMatching_sublist _ _ _).subset hgD
      have hgC : g ∈ xlsxCandidates dir := hgenC g hgdir hp.1 hp.2
      by_cases hgf : g = f
      · rw [hgf, heq]
      · exact absurd hgD (hdel g hgC (ownedBy_of_inventoryPat hp.1) hgf)
    refine ⟨rfl, rfl, ?_, ?_, ?_⟩
    · rw [hfeq]
      exact hfD
    · intro g hg
      exact hdel g (by rw [hC]; exact hg)
    · refine length_filter_eq_one_of _ _ (get_excel_file u) ?_ f hfD ?_ hpat
      · exact nodup_of_sublist (deleteMatching_sublist _ _ _) hnd
      · rw [heq]
        rw [inventoryPat_get_excel_file u, xlsxSuffix_get_excel_file u]
        rfl
  · have hclear : get_excel_file u ∉
        dirNames (tryRemove dir (get_excel_file u)) := by
      rcases hl : lookup dir (get_excel_file u) with _ | c
      · rw [tryRemove_of_not_mem (not_mem_of_lookup_eq_none hl)]
        exact not_mem_of_lookup_eq_none hl
      · have hcdir : c ∈ dir := (lookup_mem hl).1
        have hcname : c.name = get_excel_file u := (lookup_mem hl).2
        have hcC : c ∈ xlsxCandidates dir :=
          mem_xlsxCandidates_of dir c hcdir (isCandidate_get_excel_file u hu c hcname)
        have hcf : c ≠ f := fun he => heq (by rw [← he]; exact hcname)
        have hcown : ownedBy u c.name = true := by
          rw [hcname]
          exact ownedBy_get_excel_file u
        have hcnl : c.locked = false := hothers c hcC hcown hcf
        have hok : removeOk dir (get_excel_file u) = true := by
          rw [removeOk, hl]
          dsimp only
          rw [hall c hcC, hcnl]
          rfl
        exact not_mem_names_tryRemove hok
    have hev := manage_owned_unlocked_step u (get_excel_file u) ts now dir f f0
      rest hC hnew hallB howned hnl hacc heq hmemdir hnd hclear
    rw [hev]
    dsimp only
    have hndb := nodup_of_sublist (tryRemove_sublist dir (get_excel_file u)) hnd
    have hfb : f ∈ tryRemove dir (get_excel_file u) :=
      mem_tryRemove_of_ne hmemdir heq
    have hndR : (dirNames (doRename (tryRemove dir (get_excel_file u)) f.name
        (get_excel_file u))).Nodup := nodup_dirNames_doRename hndb hclear
    have hrmem : { f with name := get_excel_file u } ∈
        doRename (tryRemove dir (get_excel_file u)) f.name (get_excel_file u) :=
      renamed_mem_doRename hfb rfl
    have hprotR : ∀ h' ∈ f0 :: rest,
        (!(h'.name == get_excel_file u) && (ownTag u).isPrefixOf h'.name) = true →
        h'.name ≠ ({ f with name := get_excel_file u } : DFile).name := by
      intro h' hh' hc he
      simp only [Bool.and_eq_true] at hc
      have h2 : h'.name = get_excel_file u := he
      rw [h2] at hc
      simp at hc
    have hrD : { f with name := get_excel_file u } ∈ deleteMatching (f0 :: rest)
        (fun x => !(x.name == get_excel_file u) && (ownTag u).isPrefixOf x.name)
        (doRename (tryRemove dir (get_excel_file u)) f.name (get_excel_file u)) :=
      mem_deleteMatching_of_cond_ne hrmem hprotR
    have helim : ∀ g : DFile, g ∈ doRename (tryRemove dir (get_excel_file u))
        f.name (get_excel_file u) →
        g = { f with name := get_excel_file u } ∨
          (g ∈ tryRemove dir (get_excel_file u) ∧ g.name ≠ f.name ∧
            g.name ≠ get_excel_file u) := by
      intro g hg
      rcases mem_doRename_elim hg with ⟨h', hh', hcase⟩
      rcases hcase with ⟨hn, hgr⟩ | ⟨hn, hgr⟩
      · left
        have hh'f : h' = f := by
          have h1 := lookup_eq_some_self hndb hh'
          rw [hn] at h1
          have h2 := lookup_eq_some_self hndb hfb
          rw [h1] at h2
          exact Option.some.inj h2
        rw [hh'f] at hgr
        exact hgr
      · right
        subst hgr
        refine ⟨hh', hn, ?_⟩
        intro hcn
        have h5 := name_mem_dirNames hh'
        rw [hcn] at h5
        exact hclear h5
    have hdel : ∀ g ∈ xlsxCandidates dir, ownedBy u g.name = true → g ≠ f →
        g ∉ deleteMatching (f0 :: rest)
          (fun x => !(x.name == get_excel_file u) && (ownTag u).isPrefixOf x.name)
          (doRename (tryRemove dir (get_excel_file u)) f.name (get_excel_file u)) := by
      intro g hg hgown hgf hginD
      rw [ownedBy] at hgown
      have hgnf : g.name ≠ f.name := hnameNe g hg hgf
      have hgnl : g.locked = false :=
        hothers g hg (by rw [ownedBy]; exact hgown) hgf
      have hgR := (deleteMatching_sublist _ _ _).subset hginD
      rcases helim g hgR with h1 | ⟨hgt, _, hgcn⟩
      · have : g.mtime < f.mtime := hmax g hg hgf
        rw [h1] at this
        dsimp only at this
        omega
      · have hcond : (!(g.name == get_excel_file u) &&
            (ownTag u).isPrefixOf g.name) = true := by
          rw [hgown]
          simp [hgcn]
        have hgRmem : g ∈ doRename (tryRemove dir (get_excel_file u)) f.name
            (get_excel_file u) := mem_doRename_of_ne hgt hgnf
        exact not_mem_names_deleteMatching hndR hgRmem (by rw [← hC]; exact hg)
          hcond (hall g hg) hgnl (name_mem_dirNames hginD)
    have hpat : ∀ g ∈ deleteMatching (f0 :: rest)
        (fun x => !(x.name == get_excel_file u) && (ownTag u).isPrefixOf x.name)
        (doRename (tryRemove dir (get_excel_file u)) f.name (get_excel_file u)),
        ((u ++ "_inventory".toList).isPrefixOf g.name &&
          xlsxExt.isSuffixOf g.name) = true → g.name = get_excel_file u := by
      intro g hgD hp
      simp only [Bool.and_eq_true] at hp
      have hgR := (deleteMatching_sublist _ _ _).subset hgD
      rcases helim g hgR with h1 | ⟨hgt, hgnf, hgcn⟩
      · rw [h1]
      · exfalso
        have hgdir : g ∈ dir := (tryRemove_sublist _ _).subset hgt
        have hgC : g ∈ xlsxCandidates dir := hgenC g hgdir hp.1 hp.2
        have hgf : g ≠ f := fun he => hgnf (by rw [he])
        exact hdel g hgC (ownedBy_of_inventoryPat hp.1) hgf hgD
    refine ⟨rfl, rfl, hrD, ?_, ?_⟩
    · intro g hg
      exact hdel g (by rw [hC]; exact hg)
    refine length_filter_eq_one_of _ _ (get_excel_file u) ?_
      ({ f with name := get_excel_file u }) hrD ?_ hpat
    · exact nodup_of_sublist (deleteMatching_sublist _ _ _) hndR
    · show ((u ++ "_inventory".toList).isPrefixOf (get_excel_file u) &&
        xlsxExt.isSuffixOf (get_excel_file u)) = true
      rw [inventoryPat_get_excel_file u, xlsxSuffix_get_excel_file u]
      rfl

/-- C3 witness: `bob_data.xlsx` is the newest and writable, the stale
`bob_inventory.xlsx` is removable: the canonical file holds the newest
content, the stale duplicate is gone, and exactly one
`bob_inventory*.xlsx` file remains. -/
theorem c3_owned_writable_newest_consolidated_witness :
    (manage_excel_files_on_save
      ⟨"bob".toList, "bob_inventory.xlsx".toList, "20250301_080000".toList, 4,
        [⟨"bob_data.xlsx".toList, 10, [["n"]], false, false, true⟩,
         ⟨"bob_inventory.xlsx".toList, 5, [["s"]], false, false, true⟩]⟩).ok =
      true ∧
    (manage_excel_files_on_save
      ⟨"bob".toList, "bob_inventory.xlsx".toList, "20250301_080000".toList, 4,
        [⟨"bob_data.xlsx".toList, 10, [["n"]], false, false, true⟩,
         ⟨"bob_inventory.xlsx".toList, 5, [["s"]], false, false, true⟩]⟩).excelFile =
      get_excel_file ("bob".toList) ∧
    (⟨"bob_inventory.xlsx".toList, 10, [["n"]], false, false, true⟩ : DFile) ∈
      (manage_excel_files_on_save
        ⟨"bob".toList, "bob_inventory.xlsx".toList, "20250301_080000".toList, 4,
          [⟨"bob_data.xlsx".toList, 10, [["n"]], false, false, true⟩,
           ⟨"bob_inventory.xlsx".toList, 5, [["s"]], false, false, true⟩]⟩).dir ∧
    (⟨"bob_inventory.xlsx".toList, 5, [["s"]], false, false, true⟩ : DFile) ∉
      (manage_excel_files_on_save
        ⟨"bob".toList, "bob_inventory.xlsx".toList, "20250301_080000".toList, 4,
          [⟨"bob_data.xlsx".toList, 10, [["n"]], false, false, true⟩,
           ⟨"bob_inventory.xlsx".toList, 5, [["s"]], false, false, true⟩]⟩).dir ∧
    (((manage_excel_files_on_save
      ⟨"bob".toList, "bob_inventory.xlsx".toList, "20250301_080000".toList, 4,
        [⟨"bob_data.xlsx".toList, 10, [["n"]], false, false, true⟩,
         ⟨"bob_inventory.xlsx".toList, 5, [["s"]], false, false, true⟩]⟩).dir.filter
      (fun g => ("bob".toList ++ "_inventory".toList).isPrefixOf g.name &&
        xlsxExt.isSuffixOf g.name)).length = 1) := by
  have h := c3_owned_writable_newest_consolidated
    ⟨"bob".toList, "bob_inventory.xlsx".toList, "20250301_080000".toList, 4,
      [⟨"bob_data.xlsx".toList, 10, [["n"]], false, false, true⟩,
       ⟨"bob_inventory.xlsx".toList, 5, [["s"]], false, false, true⟩]⟩
    ⟨"bob_data.xlsx".toList, 10, [["n"]], false, false, true⟩
    (by decide) (by decide) (by decide) (by decide) (by decide) (by decide)
    (by decide) (by decide) (by decide)
  refine ⟨h.1, h.2.1, ?_, ?_, h.2.2.2.2⟩
  · exact h.2.2.1
  · exact h.2.2.2.1 ⟨"bob_inventory.xlsx".toList, 5, [["s"]], false, false, true⟩
      (by decide) (by decide) (by decide)

/-- C3 counterexample: the newest accessible candidate `bob_data.xlsx`
is owned by the active user and writable (the claim's hypothesis), but
the stale file at the canonical name is locked: both deletion and
rename of/onto `bob_inventory.xlsx` raise, so the call succeeds while
adopting `bob_data.xlsx` instead of the canonical path — the claim's
"renames it to the canonical path and adopts it" is false. -/
theorem c3_counterexample_locked_stale_canonical :
    manage_excel_files_on_save
      ⟨"bob".toList, "bob_inventory.xlsx".toList, "20250102_111111".toList, 9,
        [⟨"bob_data.xlsx".toList, 10, [["x"]], false, false, true⟩,
         ⟨"bob_inventory.xlsx".toList, 5, [["y"]], false, true, true⟩]⟩ =
      { dir := [⟨"bob_data.xlsx".toList, 10, [["x"]], false, false, true⟩,
                ⟨"bob_inventory.xlsx".toList, 5, [["y"]], false, true, true⟩],
        excelFile := "bob_data.xlsx".toList, ok := true } ∧
    "bob_data.xlsx".toList ≠ get_excel_file ("bob".toList) := by
  exact ⟨by decide, by decide⟩

/-- Startup preparation preserves every record whose basename lacks the
active user's `{user}_` marker, provided `self.excel_file` itself
carries the marker: every mutation site (the stale-file delete, the
copy destination and the cleanup loop) targets a marker-carrying
name. -/
theorem prepare_preserves_foreign (env : StartupEnv) (f : DFile)
    (hef : ownedBy env.username env.excelFile = true)
    (hf : f ∈ env.dir) (hfo : ownedBy env.username f.name = false) :
    f ∈ (prepare_excel_file_on_startup env).dir := by
  have hneq : ∀ n : Name, ownedBy env.username n = true → f.name ≠ n := by
    intro n hn he
    rw [he, hn] at hfo
    simp at hfo
  have hneqP : ∀ n : Name, (ownTag env.username).isPrefixOf n = true →
      f.name ≠ n := fun n hn => hneq n (by rw [ownedBy]; exact hn)
  have hnef : f.name ≠ env.excelFile := hneq _ hef
  rcases hC : xlsxCandidates env.dir with _ | ⟨f0, rest⟩
  · simp only [prepare_excel_file_on_startup, hC]
    exact hf
  · rcases hA : (f0 :: rest).filter (fun g => g.accessible) with _ | ⟨a, l⟩
    · simp only [prepare_excel_file_on_startup, hC, hA]
      exact hf
    · simp only [prepare_excel_file_on_startup, hC, hA]
      have hDM : ∀ (c : Name) (d : List DFile), f ∈ d →
          f ∈ deleteMatching (f0 :: rest)
            (fun g => !(g.name == c) &&
              (ownTag env.username).isPrefixOf g.name) d := by
        intro c d hfd
        refine mem_deleteMatching_of_cond_ne hfd ?_
        intro h' hh' hc
        have hpre : (ownTag env.username).isPrefixOf h'.name = true := by
          simp only [Bool.and_eq_true] at hc
          tauto
        exact fun he => hneqP h'.name hpre he.symm
      by_cases heq : (firstNewest1 a l).name = env.excelFile
      · rw [if_pos heq]
        exact hDM env.excelFile env.dir hf
      · rw [if_neg heq]
        have hfA : f ∈ tryRemove env.dir env.excelFile :=
          mem_tryRemove_of_ne hf hnef
        by_cases hcp : copyOk (tryRemove env.dir env.excelFile)
            (firstNewest1 a l).name env.excelFile = true
        · rw [if_pos hcp]
          exact hDM env.excelFile _ (mem_doCopy_of_ne hfA hnef)
        · rw [if_neg hcp]
          exact hfA

/-- Pre-save preparation preserves every record whose basename lacks
the active user's `{user}_` marker, provided `self.excel_file` itself
carries the marker: every delete, rename and copy destination, every
cleanup loop and the fresh-workbook save target a marker-carrying
name. -/
theorem manage_preserves_foreign (env : SaveEnv) (f : DFile)
    (hef : ownedBy env.username env.excelFile = true)
    (hf : f ∈ env.dir) (hfo : ownedBy env.username f.name = false) :
    f ∈ (manage_excel_files_on_save env).dir := by
  have hneq : ∀ n : Name, ownedBy env.username n = true → f.name ≠ n := by
    intro n hn he
    rw [he, hn] at hfo
    simp at hfo
  have hneqP : ∀ n : Name, (ownTag env.username).isPrefixOf n = true →
      f.name ≠ n := fun n hn => hneq n (by rw [ownedBy]; exact hn)
  have hnef : f.name ≠ env.excelFile := hneq _ hef
  rcases hC : xlsxCandidates env.dir with _ | ⟨f0, rest⟩
  · simp only [manage_excel_files_on_save, hC]
    by_cases hS : saveNewOk env.dir env.excelFile = true
    · rw [if_pos hS]
      exact mem_saveWorkbook_of_ne hf hnef
    · rw [if_neg hS]
      exact hf
  · have hDM : ∀ (c : Name) (d : List DFile), f ∈ d →
        f ∈ deleteMatching (f0 :: rest)
          (fun g => !(g.name == c) &&
            (ownTag env.username).isPrefixOf g.name) d := by
      intro c d hfd
      refine mem_deleteMatching_of_cond_ne hfd ?_
      intro h' hh' hc
      have hpre : (ownTag env.username).isPrefixOf h'.name = true := by
        simp only [Bool.and_eq_true] at hc
        tauto
      exact fun he => hneqP h'.name hpre he.symm
    have hDMinv : ∀ (c1 c2 : Name) (d : List DFile), f ∈ d →
        f ∈ deleteMatching (f0 :: rest)
          (fun g => !(g.name == c1) && !(g.name == c2) &&
            (invTag env.username).isPrefixOf g.name) d := by
      intro c1 c2 d hfd
      refine mem_deleteMatching_of_cond_ne hfd ?_
      intro h' hh' hc
      have hpre : (invTag env.username).isPrefixOf h'.name = true := by
        simp only [Bool.and_eq_true] at hc
        tauto
      exact fun he => hneq h'.name (ownedBy_of_inventoryMark hpre) he.symm
    have hncpI : f.name ≠ inventoryCopyName env.username env.timestamp :=
      hneq _ (ownedBy_inventoryCopyName _ _)
    have hncpC : f.name ≠ currentCopyName env.username env.timestamp :=
      hneq _ (ownedBy_currentCopyName _ _)
    simp only [manage_excel_files_on_save, hC]
    by_cases hall : ((f0 :: rest).all fun x => x.accessible) = true
    case neg =>
      rw [if_neg hall]
      exact hf
    case pos =>
    rw [if_pos hall]
    generalize hnw : firstNewest1 f0 rest = nw
    by_cases hown : (ownTag env.username).isPrefixOf nw.name = true
    case neg =>
      rw [if_neg hown]
      by_cases hcp : copyOk env.dir nw.name
          (currentCopyName env.username env.timestamp) = true
      · rw [if_pos hcp]
        have hf1 : f ∈ doCopy env.dir nw.name
            (currentCopyName env.username env.timestamp) :=
          mem_doCopy_of_ne hf hncpC
        by_cases hpr : probeOk
            (doCopy env.dir nw.name
              (currentCopyName env.username env.timestamp))
            (currentCopyName env.username env.timestamp) = true
        · rw [if_pos hpr]
          exact hDM _ _ hf1
        · rw [if_neg hpr]
          exact hf1
      · rw [if_neg hcp]
        exact hf
    case pos =>
    rw [if_pos hown]
    by_cases heq : nw.name = env.excelFile
    · simp only [if_pos heq]
      have hdm : f ∈ deleteMatching (f0 :: rest)
          (fun g => !(g.name == nw.name) &&
            (ownTag env.username).isPrefixOf g.name) env.dir :=
        hDM nw.name env.dir hf
      by_cases hpr : probeOk (deleteMatching (f0 :: rest)
          (fun g => !(g.name == nw.name) &&
            (ownTag env.username).isPrefixOf g.name) env.dir) nw.name = true
      · rw [if_pos hpr]
        exact hdm
      · rw [if_neg hpr]
        by_cases hcp : copyOk (deleteMatching (f0 :: rest)
            (fun g => !(g.name == nw.name) &&
              (ownTag env.username).isPrefixOf g.name) env.dir) nw.name
            (inventoryCopyName env.username env.timestamp) = true
        · rw [if_pos hcp]
          have hf3 : f ∈ doCopy (deleteMatching (f0 :: rest)
              (fun g => !(g.name == nw.name) &&
                (ownTag env.username).isPrefixOf g.name) env.dir) nw.name
              (inventoryCopyName env.username env.timestamp) :=
            mem_doCopy_of_ne hdm hncpI
          by_cases hpr2 : probeOk (doCopy (deleteMatching (f0 :: rest)
              (fun g => !(g.name == nw.name) &&
                (ownTag env.username).isPrefixOf g.name) env.dir) nw.name
              (inventoryCopyName env.username env.timestamp))
              (inventoryCopyName env.username env.timestamp) = true
          · rw [if_pos hpr2]
            exact hDMinv _ _ _ hf3
          · rw [if_neg hpr2]
            exact hf3
        · rw [if_neg hcp]
          exact hdm
    · simp only [if_neg heq]
      have hfA : f ∈ tryRemove env.dir env.excelFile :=
        mem_tryRemove_of_ne hf hnef
      by_cases hrn : renameOk (tryRemove env.dir env.excelFile) nw.name
          env.excelFile = true
      · simp only [if_pos hrn]
        have hfR : f ∈ doRename (tryRemove env.dir env.excelFile) nw.name
            env.excelFile :=
          mem_doRename_of_ne hfA (hneqP _ hown)
        have hdm : f ∈ deleteMatching (f0 :: rest)
            (fun g => !(g.name == env.excelFile) &&
              (ownTag env.username).isPrefixOf g.name)
            (doRename (tryRemove env.dir env.excelFile) nw.name
              env.excelFile) :=
          hDM env.excelFile _ hfR
        by_cases hpr : probeOk (deleteMatching (f0 :: rest)
            (fun g => !(g.name == env.excelFile) &&
              (ownTag env.username).isPrefixOf g.name)
            (doRename (tryRemove env.dir env.excelFile) nw.name
              env.excelFile)) env.excelFile = true
        · rw [if_pos hpr]
          simp only [if_true]
          exact hdm
        · rw [if_neg hpr]
          by_cases hcp : copyOk (deleteMatching (f0 :: rest)
              (fun g => !(g.name == env.excelFile) &&
                (ownTag env.username).isPrefixOf g.name)
              (doRename (tryRemove env.dir env.excelFile) nw.name
                env.excelFile)) env.excelFile
              (inventoryCopyName env.username env.timestamp) = true
          · rw [if_pos hcp]
            have hf3 : f ∈ doCopy (deleteMatching (f0 :: rest)
                (fun g => !(g.name == env.excelFile) &&
                  (ownTag env.username).isPrefixOf g.name)
                (doRename (tryRemove env.dir env.excelFile) nw.name
                  env.excelFile)) env.excelFile
                (inventoryCopyName env.username env.timestamp) :=
              mem_doCopy_of_ne hdm hncpI
            by_cases hpr2 : probeOk (doCopy (deleteMatching (f0 :: rest)
                (fun g => !(g.name == env.excelFile) &&
                  (ownTag env.username).isPrefixOf g.name)
                (doRename (tryRemove env.dir env.excelFile) nw.name
                  env.excelFile)) env.excelFile
                (inventoryCopyName env.username env.timestamp))
                (inventoryCopyName env.username env.timestamp) = true
            · rw [if_pos hpr2]
              exact hDMinv _ _ _ hf3
            · rw [if_neg hpr2]
              exact hf3
          · rw [if_neg hcp]
            exact hdm
      · simp only [if_neg hrn]
        have hdm : f ∈ deleteMatching (f0 :: rest)
            (fun g => !(g.name == nw.name) &&
              (ownTag env.username).isPrefixOf g.name)
            (tryRemove env.dir env.excelFile) :=
          hDM nw.name _ hfA
        by_cases hpr : probeOk (deleteMatching (f0 :: rest)
            (fun g => !(g.name == nw.name) &&
              (ownTag env.username).isPrefixOf g.name)
            (tryRemove env.dir env.excelFile)) nw.name = true
        · rw [if_pos hpr, if_neg heq]
          have hfB : f ∈ tryRemove (deleteMatching (f0 :: rest)
              (fun g => !(g.name == nw.name) &&
                (ownTag env.username).isPrefixOf g.name)
              (tryRemove env.dir env.excelFile)) env.excelFile :=
            mem_tryRemove_of_ne hdm hnef
          by_cases hrn2 : renameOk (tryRemove (deleteMatching (f0 :: rest)
              (fun g => !(g.name == nw.name) &&
                (ownTag env.username).isPrefixOf g.name)
              (tryRemove env.dir env.excelFile)) env.excelFile) nw.name
              env.excelFile = true
          · rw [if_pos hrn2]
            exact mem_doRename_of_ne hfB (hneqP _ hown)
          · rw [if_neg hrn2]
            exact hfB
        · rw [if_neg hpr]
          by_cases hcp : copyOk (deleteMatching (f0 :: rest)
              (fun g => !(g.name == nw.name) &&
                (ownTag env.username).isPrefixOf g.name)
              (tryRemove env.dir env.excelFile)) nw.name
              (inventoryCopyName env.username env.timestamp) = true
          · rw [if_pos hcp]
            have hf3 : f ∈ doCopy (deleteMatching (f0 :: rest)
                (fun g => !(g.name == nw.name) &&
                  (ownTag env.username).isPrefixOf g.name)
                (tryRemove env.dir env.excelFile)) nw.name
                (inventoryCopyName env.username env.timestamp) :=
              mem_doCopy_of_ne hdm hncpI
            by_cases hpr2 : probeOk (doCopy (deleteMatching (f0 :: rest)
                (fun g => !(g.name == nw.name) &&
                  (ownTag env.username).isPrefixOf g.name)
                (tryRemove env.dir env.excelFile)) nw.name
                (inventoryCopyName env.username env.timestamp))
                (inventoryCopyName env.username env.timestamp) = true
            · rw [if_pos hpr2]
              exact hDMinv _ _ _ hf3
            · rw [if_neg hpr2]
              exact hf3
          · rw [if_neg hcp]
            exact hdm

/-- C1 (amended): provided the session's active path `self.excel_file`
itself carries the active user's `{user}_` marker — as it does when it
equals the canonical `get_excel_file` path, though not necessarily
after a startup copy-failure fallback — neither startup preparation nor
pre-save preparation ever deletes, renames, or overwrites a candidate
file owned by another user: every such record survives the call
unchanged. -/
theorem c1_cross_user_files_untouched (envS : StartupEnv) (envM : SaveEnv)
    (fS fM : DFile)
    (hefS : ownedBy envS.username envS.excelFile = true)
    (hfS : fS ∈ envS.dir) (hfSo : ownedBy envS.username fS.name = false)
    (hefM : ownedBy envM.username envM.excelFile = true)
    (hfM : fM ∈ envM.dir) (hfMo : ownedBy envM.username fM.name = false) :
    fS ∈ (prepare_excel_file_on_startup envS).dir ∧
    fM ∈ (manage_excel_files_on_save envM).dir :=
  ⟨prepare_preserves_foreign envS fS hefS hfS hfSo,
   manage_preserves_foreign envM fM hefM hfM hfMo⟩

/-- C1 witness: `alice_inventory.xlsx`, the newest but foreign
candidate, survives both a startup pass and a pre-save pass run by
`bob` with the canonical `bob_inventory.xlsx` as active path. -/
theorem c1_cross_user_files_untouched_witness :
    (⟨"alice_inventory.xlsx".toList, 10, [["x"]], false, false, true⟩ : DFile) ∈
      (prepare_excel_file_on_startup
        { username := "bob".toList, excelFile := "bob_inventory.xlsx".toList,
          dir := [⟨"alice_inventory.xlsx".toList, 10, [["x"]], false, false, true⟩,
                  ⟨"bob_inventory.xlsx".toList, 8, [["y"]], false, false, true⟩] }).dir ∧
    (⟨"alice_inventory.xlsx".toList, 10, [["x"]], false, false, true⟩ : DFile) ∈
      (manage_excel_files_on_save
        { username := "bob".toList, excelFile := "bob_inventory.xlsx".toList,
          timestamp := "20250102_111111".toList, now := 9,
          dir := [⟨"alice_inventory.xlsx".toList, 10, [["x"]], false, false, true⟩,
                  ⟨"bob_inventory.xlsx".toList, 5, [["y"]], false, false, true⟩] }).dir :=
  c1_cross_user_files_untouched
    { username := "bob".toList, excelFile := "bob_inventory.xlsx".toList,
      dir := [⟨"alice_inventory.xlsx".toList, 10, [["x"]], false, false, true⟩,
              ⟨"bob_inventory.xlsx".toList, 8, [["y"]], false, false, true⟩] }
    { username := "bob".toList, excelFile := "bob_inventory.xlsx".toList,
      timestamp := "20250102_111111".toList, now := 9,
      dir := [⟨"alice_inventory.xlsx".toList, 10, [["x"]], false, false, true⟩,
              ⟨"bob_inventory.xlsx".toList, 5, [["y"]], false, false, true⟩] }
    ⟨"alice_inventory.xlsx".toList, 10, [["x"]], false, false, true⟩
    ⟨"alice_inventory.xlsx".toList, 10, [["x"]], false, false, true⟩
    (by decide) (by decide) (by decide) (by decide) (by decide) (by decide)

/-- C1 counterexample: a startup pass whose copy fails (the stale
canonical file is locked) falls back to adopting
`alice_inventory.xlsx`, another user's path, as `self.excel_file`.  The
next pre-save pass, with `bob_inventory.xlsx` now newest, removes the
stale file at `self.excel_file` unconditionally: `alice_inventory.xlsx`
— a candidate owned by a different user — is deleted from the shared
directory, and the call still reports success. -/
theorem c1_counterexample_foreign_file_deleted :
    ownedBy ("bob".toList)
      ((prepare_excel_file_on_startup
        { username := "bob".toList, excelFile := "bob_inventory.xlsx".toList,
          dir := [⟨"alice_inventory.xlsx".toList, 10, [["x"]], false, false, true⟩,
                  ⟨"bob_inventory.xlsx".toList, 8, [["y"]], false, true, true⟩] }).excelFile) =
      false ∧
    ownedBy ("bob".toList) ("alice_inventory.xlsx".toList) = false ∧
    (⟨"alice_inventory.xlsx".toList, 10, [["x"]], false, false, true⟩ : DFile) ∈
      [⟨"alice_inventory.xlsx".toList, 10, [["x"]], false, false, true⟩,
       ⟨"bob_inventory.xlsx".toList, 12, [["y"]], false, true, true⟩] ∧
    (manage_excel_files_on_save
      { username := "bob".toList,
        excelFile := (prepare_excel_file_on_startup
          { username := "bob".toList, excelFile := "bob_inventory.xlsx".toList,
            dir := [⟨"alice_inventory.xlsx".toList, 10, [["x"]], false, false, true⟩,
                    ⟨"bob_inventory.xlsx".toList, 8, [["y"]], false, true, true⟩] }).excelFile,
        timestamp := "20250103_000000".toList, now := 20,
        dir := [⟨"alice_inventory.xlsx".toList, 10, [["x"]], false, false, true⟩,
                ⟨"bob_inventory.xlsx".toList, 12, [["y"]], false, true, true⟩] }).ok = true ∧
    "alice_inventory.xlsx".toList ∉
      dirNames (manage_excel_files_on_save
        { username := "bob".toList,
          excelFile := (prepare_excel_file_on_startup
            { username := "bob".toList, excelFile := "bob_inventory.xlsx".toList,
              dir := [⟨"alice_inventory.xlsx".toList, 10, [["x"]], false, false, true⟩,
                      ⟨"bob_inventory.xlsx".toList, 8, [["y"]], false, true, true⟩] }).excelFile,
          timestamp := "20250103_000000".toList, now := 20,
          dir := [⟨"alice_inventory.xlsx".toList, 10, [["x"]], false, false, true⟩,
                  ⟨"bob_inventory.xlsx".toList, 12, [["y"]], false, true, true⟩] }).dir := by
  decide

/-- C9 (amended): startup preparation never raises; its two failure
modes differ.  When every candidate's timestamp is readable and the
newest candidate `f` is not at the canonical path: (a) if a locked
stale file occupies the canonical path — so that both its deletion and
the copy onto it fail — the call leaves the directory unchanged and
falls back to adopting `f`'s own path; (b) if nothing occupies the
canonical path, the copy succeeds and a failure to delete a locked
user-owned duplicate during cleanup does not trigger any fallback: the
canonical path stays adopted and the locked duplicate survives. -/
theorem c9_startup_copy_delete_failure_policy (env : StartupEnv)
    (f f0 : DFile) (rest : List DFile)
    (hnd : (dirNames env.dir).Nodup)
    (hC : xlsxCandidates env.dir = f0 :: rest)
    (hall : ∀ g ∈ xlsxCandidates env.dir, g.accessible = true)
    (hnew : firstNewest1 f0 rest = f)
    (hne : f.name ≠ env.excelFile) :
    (∀ c, lookup env.dir env.excelFile = some c → c.locked = true →
      prepare_excel_file_on_startup env =
        { dir := env.dir, excelFile := f.name }) ∧
    (lookup env.dir env.excelFile = none →
      (prepare_excel_file_on_startup env).excelFile = env.excelFile ∧
      ∀ g, g ∈ env.dir → g.locked = true →
        g ∈ (prepare_excel_file_on_startup env).dir) := by
  have hmemC : f ∈ xlsxCandidates env.dir := by
    have h0 := firstNewest1_mem f0 rest
    rw [hnew] at h0
    rw [hC]
    exact h0
  have hmemD : f ∈ env.dir := ((mem_xlsxCandidates env.dir f).1 hmemC).1
  have hacc : f.accessible = true := hall f hmemC
  have hfilter : (f0 :: rest).filter (fun g => g.accessible) = f0 :: rest := by
    rw [List.filter_eq_self]
    intro g hg
    have hgC : g ∈ xlsxCandidates env.dir := by
      rw [hC]
      exact hg
    exact hall g hgC
  have hlf : lookup env.dir f.name = some f := lookup_eq_some_self hnd hmemD
  constructor
  · intro c hcl hclk
    have hA : tryRemove env.dir env.excelFile = env.dir := by
      simp only [tryRemove, removeOk, hcl, hclk]
      simp
    have hcp : copyOk env.dir f.name env.excelFile = false := by
      simp only [copyOk, hlf, hcl, hclk]
      simp
    have hcpn : ¬ copyOk env.dir f.name env.excelFile = true := by
      rw [hcp]
      simp
    simp only [prepare_excel_file_on_startup, hC, hfilter, hnew]
    rw [if_neg hne, hA, if_neg hcpn]
  · intro hnone
    have hncur : env.excelFile ∉ dirNames env.dir :=
      not_mem_of_lookup_eq_none hnone
    have hA : tryRemove env.dir env.excelFile = env.dir := by
      simp only [tryRemove, removeOk, hnone]
      simp
    have hcp : copyOk env.dir f.name env.excelFile = true := by
      simp only [copyOk, hlf, hnone]
      simp [hacc]
    have hP : prepare_excel_file_on_startup env =
        { dir := deleteMatching (f0 :: rest)
            (fun g => !(g.name == env.excelFile) &&
              (ownTag env.username).isPrefixOf g.name)
            (doCopy env.dir f.name env.excelFile),
          excelFile := env.excelFile } := by
      simp only [prepare_excel_file_on_startup, hC, hfilter, hnew]
      rw [if_neg hne, hA, if_pos hcp]
    rw [hP]
    refine ⟨rfl, ?_⟩
    intro g hg hgl
    have hgn : g.name ≠ env.excelFile :=
      fun he => hncur (he ▸ name_mem_dirNames hg)
    have hgC : g ∈ doCopy env.dir f.name env.excelFile :=
      mem_doCopy_of_ne hg hgn
    have hndC : (dirNames (doCopy env.dir f.name env.excelFile)).Nodup :=
      nodup_dirNames_doCopy hnd
    exact mem_deleteMatching_of_not_removable hndC hgC (Or.inr hgl)

/-- C9 witness: (a) with a locked stale `bob_inventory.xlsx` at the
canonical path blocking both delete and copy, startup leaves the
directory unchanged and adopts `alice_inventory.xlsx`, the newest
candidate's own path; (b) with nothing at the canonical path and a
locked duplicate `bob_old.xlsx`, the canonical path stays adopted and
the locked duplicate survives the failed cleanup delete. -/
theorem c9_startup_copy_delete_failure_policy_witness :
    (prepare_excel_file_on_startup
      { username := "bob".toList, excelFile := "bob_inventory.xlsx".toList,
        dir := [⟨"alice_inventory.xlsx".toList, 10, [["x"]], false, false, true⟩,
                ⟨"bob_inventory.xlsx".toList, 8, [["y"]], false, true, true⟩] } =
      { dir := [⟨"alice_inventory.xlsx".toList, 10, [["x"]], false, false, true⟩,
                ⟨"bob_inventory.xlsx".toList, 8, [["y"]], false, true, true⟩],
        excelFile := "alice_inventory.xlsx".toList }) ∧
    (prepare_excel_file_on_startup
      { username := "bob".toList, excelFile := "bob_inventory.xlsx".toList,
        dir := [⟨"alice_inventory.xlsx".toList, 10, [["x"]], false, false, true⟩,
                ⟨"bob_old.xlsx".toList, 5, [["z"]], false, true, true⟩] }).excelFile =
      "bob_inventory.xlsx".toList ∧
    (⟨"bob_old.xlsx".toList, 5, [["z"]], false, true, true⟩ : DFile) ∈
      (prepare_excel_file_on_startup
        { username := "bob".toList, excelFile := "bob_inventory.xlsx".toList,
          dir := [⟨"alice_inventory.xlsx".toList, 10, [["x"]], false, false, true⟩,
                  ⟨"bob_old.xlsx".toList, 5, [["z"]], false, true, true⟩] }).dir := by
  refine ⟨?_, ?_, ?_⟩
  · exact (c9_startup_copy_delete_failure_policy
      { username := "bob".toList, excelFile := "bob_inventory.xlsx".toList,
        dir := [⟨"alice_inventory.xlsx".toList, 10, [["x"]], false, false, true⟩,
                ⟨"bob_inventory.xlsx".toList, 8, [["y"]], false, true, true⟩] }
      ⟨"alice_inventory.xlsx".toList, 10, [["x"]], false, false, true⟩
      ⟨"alice_inventory.xlsx".toList, 10, [["x"]], false, false, true⟩
      [⟨"bob_inventory.xlsx".toList, 8, [["y"]], false, true, true⟩]
      (by decide) (by decide) (by decide) (by decide) (by decide)).1
      ⟨"bob_inventory.xlsx".toList, 8, [["y"]], false, true, true⟩
      (by decide) (by decide)
  · exact ((c9_startup_copy_delete_failure_policy
      { username := "bob".toList, excelFile := "bob_inventory.xlsx".toList,
        dir := [⟨"alice_inventory.xlsx".toList, 10, [["x"]], false, false, true⟩,
                ⟨"bob_old.xlsx".toList, 5, [["z"]], false, true, true⟩] }
      ⟨"alice_inventory.xlsx".toList, 10, [["x"]], false, false, true⟩
      ⟨"alice_inventory.xlsx".toList, 10, [["x"]], false, false, true⟩
      [⟨"bob_old.xlsx".toList, 5, [["z"]], false, true, true⟩]
      (by decide) (by decide) (by decide) (by decide) (by decide)).2
      (by decide)).1
  · exact ((c9_startup_copy_delete_failure_policy
      { username := "bob".toList, excelFile := "bob_inventory.xlsx".toList,
        dir := [⟨"alice_inventory.xlsx".toList, 10, [["x"]], false, false, true⟩,
                ⟨"bob_old.xlsx".toList, 5, [["z"]], false, true, true⟩] }
      ⟨"alice_inventory.xlsx".toList, 10, [["x"]], false, false, true⟩
      ⟨"alice_inventory.xlsx".toList, 10, [["x"]], false, false, true⟩
      [⟨"bob_old.xlsx".toList, 5, [["z"]], false, true, true⟩]
      (by decide) (by decide) (by decide) (by decide) (by decide)).2
      (by decide)).2
      ⟨"bob_old.xlsx".toList, 5, [["z"]], false, true, true⟩
      (by decide) (by decide)

/-- C9 counterexample: the cleanup delete of the locked, user-owned
`bob_old.xlsx` fails, yet startup does not fall back to the newest
candidate's path: the canonical `bob_inventory.xlsx` stays adopted
(differing from the newest candidate's own path
`alice_inventory.xlsx`), refuting the claim that a delete failure makes
the process adopt the newest candidate's path directly. -/
theorem c9_counterexample_delete_failure_no_fallback :
    (prepare_excel_file_on_startup
      { username := "bob".toList, excelFile := "bob_inventory.xlsx".toList,
        dir := [⟨"alice_inventory.xlsx".toList, 10, [["x"]], false, false, true⟩,
                ⟨"bob_old.xlsx".toList, 5, [["z"]], false, true, true⟩] } =
      { dir := [⟨"alice_inventory.xlsx".toList, 10, [["x"]], false, false, true⟩,
                ⟨"bob_old.xlsx".toList, 5, [["z"]], false, true, true⟩,
                ⟨"bob_inventory.xlsx".toList, 10, [["x"]], false, false, true⟩],
        excelFile := "bob_inventory.xlsx".toList }) ∧
    ownedBy ("bob".toList) ("bob_old.xlsx".toList) = true ∧
    removeOk
      [⟨"alice_inventory.xlsx".toList, 10, [["x"]], false, false, true⟩,
       ⟨"bob_old.xlsx".toList, 5, [["z"]], false, true, true⟩]
      ("bob_old.xlsx".toList) = false ∧
    "bob_inventory.xlsx".toList ≠ "alice_inventory.xlsx".toList := by
  decide

end FixtureControl
